import Mathlib

/-!
Verification development for the repository `rockbox_scripts`.

This file gives a shallow embedding of `src/album_art_fix.py` and proves
properties of it.  The embedding models:

* the filesystem as an explicit state (an association list from paths to
  file contents, plus the set of directories created under the temporary
  root, plus the static directory tree that `os.walk` traverses);
* Python exceptions as an explicit result type (`MRes`), with
  `KeyboardInterrupt` distinguished from ordinary `Exception`s so that
  `except Exception` and `except KeyboardInterrupt` clauses can be
  modelled faithfully;
* the external libraries (mutagen, PIL, base64) as oracles packaged in an
  `Env` record: the embedding is parametric in what those libraries return
  for given file bytes, and byte strings are abstracted as `Nat`
  identifiers;
* JPEG encoding at the metadata level: a saved JPEG records the pixel
  dimensions, colour mode, quality and subsampling that were written, and
  decoding a saved JPEG returns exactly those recorded dimensions.

Every Python function of the source that the claims touch is translated
one-to-one (`extract_art_mutagen`, `handle_audio_files`,
`process_cover_image`, `process_images`, `clear_temp_directory`, `main`),
keeping the source's names.  An event trace in the state records the
observable actions (prints, moves, staging writes, folder visits, calls to
the cleanup routine) so that "invoked exactly once" style properties can
be stated.
-/

namespace AlbumArt

/-- A filesystem path, as its list of components. -/
abbrev Path := List String

/-- The platform temporary root (`tempfile.gettempdir()`). -/
def tmpRoot : Path := ["tmp"]

/-- `SUPPORTED_EXTENSIONS` from the source. -/
def SUPPORTED_EXTENSIONS : List String := [".mp3", ".flac", ".opus", ".ogg", ".m4a"]

/-- `COVER_FILENAME` from the source. -/
def COVER_FILENAME : String := "cover.jpg"

/-- `TEMP_FOLDER_NAME` from the source. -/
def TEMP_FOLDER_NAME : String := "cover_extraction_temp"

/-- Python `str.startswith`, on exact characters. -/
def strStartsWith (s pre : String) : Bool := pre.toList.isPrefixOf s.toList

/-- Python `str.endswith`, on exact characters (case-sensitive). -/
def strEndsWith (s suf : String) : Bool := suf.toList.isSuffixOf s.toList

/-- Python `str.lower`. -/
def lowerStr (s : String) : String := String.mk (s.toList.map Char.toLower)

/-- Python `os.path.splitext`, restricted to a single path component (no
separators): the extension starts at the last dot, except that a basename
consisting only of leading dots has no extension. -/
def pySplitExt (s : String) : String × String :=
  let cs := s.toList
  let extLen := (cs.reverse.takeWhile (fun c => c ≠ '.')).length
  if extLen = cs.length then (s, "")
  else
    let cut := cs.length - extLen - 1
    if (cs.take cut).all (fun c => c = '.') then (s, "")
    else (String.mk (cs.take cut), String.mk (cs.drop cut))

/-- `os.path.basename`: the last component of a path. -/
def baseName : Path → String
  | [] => ""
  | [x] => x
  | _ :: rest => baseName rest

/-- Rendering of a path for messages. -/
def pathStr (p : Path) : String := String.intercalate "/" p

/-- Boolean path-prefix test (is `p` an initial segment of `q`?). -/
def pathPre : Path → Path → Bool
  | [], _ => true
  | _ :: _, [] => false
  | a :: as, b :: bs => if a = b then pathPre as bs else false

/-- A static directory tree: the structure `os.walk` traverses.  Each node
has a name, subdirectories and directly contained file names. -/
inductive Tree where
  | node (name : String) (subs : List Tree) (files : List String)

/-- Name of a tree node. -/
def Tree.name : Tree → String
  | .node n _ _ => n

/-- Subdirectories of a tree node. -/
def Tree.subs : Tree → List Tree
  | .node _ s _ => s

/-- File names directly inside a tree node. -/
def Tree.filesOf : Tree → List String
  | .node _ _ f => f

/-- Effect of `dirs.remove(".rockbox")` guarded by `".rockbox" in dirs`:
drops the first subtree named `.rockbox`, if any. -/
def pruneRockbox : List Tree → List Tree
  | [] => []
  | c :: rest => if Tree.name c = ".rockbox" then rest else c :: pruneRockbox rest

theorem pruneRockbox_sizeOf_le (l : List Tree) : sizeOf (pruneRockbox l) ≤ sizeOf l := by
  induction l with
  | nil => simp [pruneRockbox]
  | cons c rest ih =>
    simp only [pruneRockbox]
    split
    · simp only [List.cons.sizeOf_spec]
      omega
    · simp only [List.cons.sizeOf_spec]
      omega

mutual
/-- The sequence of `(root, files)` pairs yielded by
`os.walk(root_dir)` after the in-loop `.rockbox` pruning, in traversal
order.  `cur` is the absolute path of the node. -/
def walkList : Tree → Path → List (Path × List String)
  | Tree.node _ subs files, cur => (cur, files) :: walkAll (pruneRockbox subs) cur
termination_by t _ => sizeOf t
decreasing_by
  have h := pruneRockbox_sizeOf_le subs
  simp only [Tree.node.sizeOf_spec]
  omega

/-- Walk of a list of (already pruned) subtrees below `cur`. -/
def walkAll : List Tree → Path → List (Path × List String)
  | [], _ => []
  | c :: cs, cur => walkList c (cur ++ [Tree.name c]) ++ walkAll cs cur
termination_by l _ => sizeOf l
decreasing_by
  · simp only [List.cons.sizeOf_spec]
    omega
  · simp only [List.cons.sizeOf_spec]
    omega
end

/-- Navigate a tree along a relative path, picking at each step the first
subdirectory with the wanted name (as a real directory listing would). -/
def findNode : Tree → Path → Option Tree
  | t, [] => some t
  | t, c :: rest =>
    match (Tree.subs t).find? (fun x => decide (Tree.name x = c)) with
    | none => none
    | some t' => findNode t' rest

mutual
/-- Well-formedness of a directory tree: at every node the child names are
distinct, as on a real filesystem. -/
def wfb : Tree → Bool
  | Tree.node _ subs _ => decide (List.Nodup (subs.map Tree.name)) && wfbAll subs
termination_by t => sizeOf t
decreasing_by
  simp only [Tree.node.sizeOf_spec]
  omega

/-- Well-formedness of every tree in a list. -/
def wfbAll : List Tree → Bool
  | [] => true
  | c :: cs => wfb c && wfbAll cs
termination_by l => sizeOf l
decreasing_by
  · simp only [List.cons.sizeOf_spec]
    omega
  · simp only [List.cons.sizeOf_spec]
    omega
end

/-- Custom induction principle for `Tree` (its nested recursion makes the
auto-generated one inconvenient). -/
theorem treeInd (P : Tree → Prop)
    (h : ∀ n subs files, (∀ c ∈ subs, P c) → P (Tree.node n subs files)) :
    ∀ t, P t
  | Tree.node n subs files => h n subs files (fun c hc => treeInd P h c)
termination_by t => sizeOf t
decreasing_by
  have := List.sizeOf_lt_of_mem hc
  simp
  omega

/-- Colour mode of a decoded image (PIL `Image.mode`). -/
inductive ColorMode where
  | RGB
  | RGBA
  | L
  | P
  | CMYK
  deriving DecidableEq, Repr

/-- What PIL knows about a decoded image: dimensions and colour mode. -/
structure ImageMeta where
  width : Nat
  height : Nat
  mode : ColorMode
  deriving DecidableEq, Repr

/-- `img.convert("RGB")`. -/
def pilConvertRGB (m : ImageMeta) : ImageMeta := { m with mode := ColorMode.RGB }

/-- `img.resize((w, h))`: sets both dimensions, no aspect-ratio preservation. -/
def pilResize (m : ImageMeta) (w h : Nat) : ImageMeta := { m with width := w, height := h }

/-- Contents of a file in the model.  `raw n` is an opaque byte string with
identity `n` (audio files, freshly staged picture payloads); `jpegSaved`
is a JPEG written by `img.save(..., "JPEG", quality, subsampling)`,
recorded at the metadata level; `emptyFile` is a zero-byte file. -/
inductive FileContent where
  | raw (bytes : Nat)
  | jpegSaved (meta : ImageMeta) (quality : Nat) (subsampling : Nat)
  | emptyFile
  deriving DecidableEq, Repr

/-- Observable events of a run, recorded in order. -/
inductive Event where
  | print (msg : String)
  | extractAttempt (p : Path)
  | stage (p : Path) (bytes : Nat)
  | moveFile (src dst : Path)
  | clearCall
  | visit (p : Path)
  deriving DecidableEq, Repr

/-- Python exceptions, at the granularity the source distinguishes:
`KeyboardInterrupt` (a `BaseException`, not caught by `except Exception`)
versus ordinary exceptions. -/
inductive PyExc where
  | keyboardInterrupt
  | osError (msg : String)
  | otherError (msg : String)
  deriving DecidableEq, Repr

/-- Does `except Exception` catch this? (`KeyboardInterrupt` it does not.) -/
def PyExc.isException : PyExc → Bool
  | .keyboardInterrupt => false
  | .osError _ => true
  | .otherError _ => true

/-- Message text used when interpolating a caught exception into an output
string. -/
def excMsg : PyExc → String
  | .keyboardInterrupt => "KeyboardInterrupt"
  | .osError m => m
  | .otherError m => m

/-- A `{data, mime}` picture record (APIC frame view, FLAC picture view,
parsed `METADATA_BLOCK_PICTURE`, MP4 cover view). -/
structure Pic where
  data : Nat
  mime : String
  deriving DecidableEq, Repr

/-- Value of `tags.get("METADATA_BLOCK_PICTURE")` on an Ogg/Opus file. -/
inductive MBPVal where
  | absent
  | strV (s : String)
  | listV (l : List String)
  | otherV
  deriving Repr

/-- The slice of a mutagen tags object that the source reads.  `frames` is
the key/frame index in `keys()` order (mp3 branch); `mbp` is the
`METADATA_BLOCK_PICTURE` comment value (ogg/opus branch); `truthy` is the
Python truthiness of the tags object. -/
structure PyTags where
  frames : List (String × Pic)
  mbp : MBPVal
  truthy : Bool
  deriving Repr

/-- The slice of a loaded mutagen file object that the source reads.
`tags = none` covers both a missing attribute and a `None` value (the
source guards with `hasattr(...) and file_obj.tags`); same for
`pictures`. -/
structure MObj where
  tags : Option PyTags
  pictures : Option (List Pic)
  deriving Repr

/-- One entry of an MP4 `covr` atom list: an `MP4Cover` (with its declared
image format) or some other value. -/
inductive MP4Item where
  | cover (data : Nat) (isJpeg : Bool)
  | nonCover
  deriving Repr

/-- The slice of an `MP4` tags object that the source reads. -/
structure MP4Tags where
  covr : Option (List MP4Item)
  deriving Repr

/-- The slice of an `MP4` object that the source reads; `tags = none`
models `mp4_obj.tags` being `None` (so `.get` raises). -/
structure MP4Obj where
  tags : Option MP4Tags
  deriving Repr

/-- Oracles for the external libraries, keyed by abstract byte-string
identities, plus the outcome of `shutil.move` (the one filesystem
operation whose OS-level failure the spec discusses). -/
structure Env where
  mutagen : Nat → Option MObj
  mp4parse : Nat → Except String MP4Obj
  b64decode : String → Option Nat
  flacPic : Nat → Option Pic
  decodeImage : Nat → Option ImageMeta
  rawSize : Nat → Nat
  moveOk : Path → Path → Bool

/-- The world state threaded through a run. -/
structure St where
  files : List (Path × FileContent)
  dirsMade : List Path
  tree : Tree
  rootPath : Path
  events : List Event
  interruptAfter : Option Nat

/-- Result of running a computation: a value or a propagating exception,
with the state at that point. -/
inductive MRes (α : Type) where
  | ok (a : α) (s : St)
  | exc (e : PyExc) (s : St)

/-- The embedding monad: state plus Python exceptions. -/
def M (α : Type) : Type := St → MRes α

/-- Bind for `M`: an exception short-circuits. -/
def mBind {α β : Type} (x : M α) (f : α → M β) : M β := fun s =>
  match x s with
  | .ok a s' => f a s'
  | .exc e s' => .exc e s'

instance : Monad M where
  pure a := fun s => .ok a s
  bind := mBind

/-- State of a result, whether it is a value or an exception. -/
def resSt {α : Type} : MRes α → St
  | .ok _ s => s
  | .exc _ s => s

/-- Did the computation finish without a propagating exception? -/
def resIsOk {α : Type} : MRes α → Bool
  | .ok _ _ => true
  | .exc _ _ => false

/-- The propagating exception of a result, if any. -/
def excOf {α : Type} : MRes α → Option PyExc
  | .ok _ _ => none
  | .exc e _ => some e

/-- Read the state. -/
def getSt : M St := fun s => .ok s s

/-- Raise a Python exception. -/
def raisePy {α : Type} (e : PyExc) : M α := fun s => .exc e s

/-- Append an event to the trace. -/
def logEvent (e : Event) : M Unit := fun s => .ok () { s with events := s.events ++ [e] }

/-- `try body except Exception: handler` — catches ordinary exceptions,
lets `KeyboardInterrupt` propagate. -/
def pyTryExc {α : Type} (body : M α) (handler : PyExc → M α) : M α := fun s =>
  match body s with
  | .ok a s' => .ok a s'
  | .exc e s' => if e.isException then handler e s' else .exc e s'

/-- Association-list lookup on the file map. -/
def lookupFile : List (Path × FileContent) → Path → Option FileContent
  | [], _ => none
  | (q, c) :: rest, p => if q = p then some c else lookupFile rest p

/-- Association-list update/insert on the file map. -/
def setFile : List (Path × FileContent) → Path → FileContent → List (Path × FileContent)
  | [], p, c => [(p, c)]
  | (q, c0) :: rest, p, c => if q = p then (p, c) :: rest else (q, c0) :: setFile rest p c

/-- Remove every entry at a path from the file map. -/
def eraseFile : List (Path × FileContent) → Path → List (Path × FileContent)
  | [], _ => []
  | (q, c) :: rest, p => if q = p then eraseFile rest p else (q, c) :: eraseFile rest p

/-- `os.path.exists`: true if a file or a created directory is at `p`. -/
def pathExistsB (s : St) (p : Path) : Bool :=
  (lookupFile s.files p).isSome || decide (p ∈ s.dirsMade)

/-- Byte size of a file's contents (a saved JPEG is never empty). -/
def contentSize (env : Env) : FileContent → Nat
  | .raw n => env.rawSize n
  | .jpegSaved _ _ _ => 1
  | .emptyFile => 0

/-- `os.path.getsize`, as a pure read (0 for a missing file; the source
only calls it under an existence check). -/
def getsizeB (env : Env) (s : St) (p : Path) : Nat :=
  match lookupFile s.files p with
  | some c => contentSize env c
  | none => 0

/-- Read a file's contents; raises `OSError` if absent (Python `open`). -/
def readFileM (p : Path) : M FileContent := fun s =>
  match lookupFile s.files p with
  | some c => .ok c s
  | none => .exc (.osError ("no such file: " ++ pathStr p)) s

/-- Write (create or overwrite) a file. -/
def writeFileM (p : Path) (c : FileContent) : M Unit := fun s =>
  .ok () { s with files := setFile s.files p c }

/-- `os.makedirs(p, exist_ok=True)`. -/
def makedirsM (p : Path) : M Unit := fun s =>
  .ok () { s with dirsMade := if p ∈ s.dirsMade then s.dirsMade else s.dirsMade ++ [p] }

/-- `shutil.move(src, dst)`: on success the file is re-keyed to `dst`; an
OS-level failure (per the `Env` oracle) or a missing source raises
`OSError`. -/
def moveM (env : Env) (src dst : Path) : M Unit := fun s =>
  match lookupFile s.files src with
  | none => .exc (.osError ("move failed: " ++ pathStr src)) s
  | some c =>
    if env.moveOk src dst then
      .ok () { s with
        files := setFile (eraseFile s.files src) dst c,
        events := s.events ++ [Event.moveFile src dst] }
    else .exc (.osError ("move failed: " ++ pathStr src)) s

/-- `shutil.rmtree(p)`: removes the directory and everything under it.  In
the abstract filesystem the removal itself always succeeds (the source's
`except OSError` around it is therefore dead in the model). -/
def rmtreeM (p : Path) : M Unit := fun s =>
  .ok () { s with
    files := s.files.filter (fun e => !(pathPre p e.1)),
    dirsMade := s.dirsMade.filter (fun d => !(pathPre p d)) }

/-- `os.listdir(directory)`: file names of the directory, read from the
walked tree; raises `OSError` when the directory is not in the tree. -/
def listdirM (p : Path) : M (List String) := fun s =>
  if h : pathPre s.rootPath p = true then
    match findNode s.tree (p.drop s.rootPath.length) with
    | some t => .ok (Tree.filesOf t) s
    | none => .exc (.osError ("listdir: " ++ pathStr p)) s
  else .exc (.osError ("listdir: " ++ pathStr p)) s

/-- Simulation of the user pressing Ctrl-C: when the interrupt budget hits
zero at a folder boundary of the walk, `KeyboardInterrupt` is raised. -/
def interruptCheck : M Unit := fun s =>
  match s.interruptAfter with
  | none => .ok () s
  | some 0 => .exc .keyboardInterrupt { s with interruptAfter := none }
  | some (n + 1) => .ok () { s with interruptAfter := some n }

/-- The staging directory `extract_art_mutagen` actually uses:
`os.path.join(tempfile.gettempdir(), TEMP_FOLDER_NAME + "_extract")`. -/
def tempExtractDir : Path := tmpRoot ++ [TEMP_FOLDER_NAME ++ "_extract"]

/-- The mime-to-extension dictionary lookup with default `"jpeg"`. -/
def mimeExtMap (mime : String) : String :=
  if mime = "image/jpeg" then "jpeg"
  else if mime = "image/png" then "png"
  else if mime = "image/gif" then "gif"
  else "jpeg"

/-- `File(file_path, easy=False)`: mutagen loads only plausible audio
bytes; a JPEG or an empty file yields `None`. -/
def mutagenLoad (env : Env) : FileContent → Option MObj
  | .raw n => env.mutagen n
  | _ => none

/-- `MP4(file_path)` on the same contents. -/
def mp4Load (env : Env) : FileContent → Except String MP4Obj
  | .raw n => env.mp4parse n
  | _ => .error "not an MP4 file"

/-- `PIL.Image.open` at the metadata level: a saved JPEG decodes to
exactly the recorded metadata; raw bytes decode per the oracle; an empty
file is unidentifiable. -/
def decodeImg (env : Env) : FileContent → Option ImageMeta
  | .raw n => env.decodeImage n
  | .jpegSaved m _ _ => some m
  | .emptyFile => none

/-- The mp3 branch's loop over `tags.keys()`: the first frame whose key
starts with `"APIC:"` (append then `break`). -/
def mp3FirstApic (frames : List (String × Pic)) : Option Pic :=
  match frames.find? (fun kv => strStartsWith kv.1 "APIC:") with
  | some kv => some kv.2
  | none => none

/-- Candidate strings gathered from the `METADATA_BLOCK_PICTURE` value:
`extend` for a list, `append` for a single string, nothing otherwise. -/
def mbpCandidates : MBPVal → List String
  | .listV l => l
  | .strV s => [s]
  | _ => []

/-- The ogg/opus branch's loop: for each candidate in order, base64-decode
then parse as a FLAC picture block; decode or parse errors are swallowed
(`continue`), the first success wins (`break`). -/
def oggFirstPic (env : Env) : List String → Option Pic
  | [] => none
  | c :: rest =>
    match env.b64decode c with
    | none => oggFirstPic env rest
    | some bs =>
      match env.flacPic bs with
      | none => oggFirstPic env rest
      | some pic => some pic

/-- Translation of `process_cover_image(image_path)`: open the image;
on success convert to RGB, resize to 300x300 and overwrite the path as a
JPEG at quality 85 with subsampling 0; an `UnidentifiedImageError` is
caught and reported, leaving the file untouched.  A missing file raises
(only `UnidentifiedImageError` is caught in the source). -/
def process_cover_image (env : Env) (image_path : Path) : M Unit := fun s =>
  match lookupFile s.files image_path with
  | none => .exc (.osError ("cannot open " ++ pathStr image_path)) s
  | some c =>
    match decodeImg env c with
    | none =>
      .ok () { s with events := s.events ++
        [Event.print ("Error processing '" ++ baseName image_path ++
          "': cannot identify image file")] }
    | some img =>
      let img1 := pilConvertRGB img
      let img2 := pilResize img1 300 300
      .ok () { s with files := setFile s.files image_path (.jpegSaved img2 85 0) }

/-- `file_ext = os.path.splitext(file_path)[1].lower()`. -/
def fileExtOf (file_path : Path) : String := lowerStr (pySplitExt (baseName file_path)).2

/-- The per-extension `if/elif` chain of `extract_art_mutagen` that fills
`pictures_data` (at most one entry ever gets appended, each branch breaks
after the first hit). -/
def picturesFor (env : Env) (file_path : Path) (content : FileContent)
    (file_obj : MObj) : M (List Pic) :=
  let file_ext := fileExtOf file_path
  if file_ext = ".mp3" then
    pure (match file_obj.tags with
      | some t =>
        if t.truthy then (mp3FirstApic t.frames).toList else []
      | none => [])
  else if file_ext = ".flac" then
    pure (match file_obj.pictures with
      | some (p :: _) => [p]
      | _ => [])
  else if file_ext = ".opus" ∨ file_ext = ".ogg" then
    pure (match file_obj.tags with
      | some t =>
        if t.truthy then (oggFirstPic env (mbpCandidates t.mbp)).toList else []
      | none => [])
  else if file_ext = ".m4a" then
    match mp4Load env content with
    | .error e => do
      logEvent (.print ("Error extracting cover from M4A: " ++
        pathStr file_path ++ ": " ++ e))
      pure []
    | .ok mp4_obj =>
      match mp4_obj.tags with
      | none => do
        -- `mp4_obj.tags.get("covr")` raises on a None tags object;
        -- the inner `except Exception` catches and reports it.
        logEvent (.print ("Error extracting cover from M4A: " ++
          pathStr file_path ++ ": AttributeError"))
        pure []
      | some mtags =>
        match mtags.covr with
        | some (item :: _) =>
          pure (match item with
            | .cover d isJpeg =>
              [{ data := d,
                 mime := if isJpeg then "image/jpeg" else "image/png" }]
            | .nonCover => [])
        | _ => pure []
  else
    pure []

/-- `temp_art_filename`: the source file's base name with the
mime-derived extension. -/
def stagedName (file_path : Path) (selected_picture : Pic) : String :=
  (pySplitExt (baseName file_path)).1 ++ "." ++ mimeExtMap selected_picture.mime

/-- `temp_art_path`: where the selected picture is staged. -/
def stagedPath (file_path : Path) (selected_picture : Pic) : Path :=
  tempExtractDir ++ [stagedName file_path selected_picture]

/-- The staging tail of `extract_art_mutagen`: create the staging
directory, write the selected picture there under the source file's base
name with the mime-derived extension, normalize it, return its path. -/
def stagePicture (env : Env) (file_path : Path) (selected_picture : Pic) :
    M (Option Path) := do
  makedirsM tempExtractDir
  writeFileM (stagedPath file_path selected_picture) (.raw selected_picture.data)
  logEvent (.stage (stagedPath file_path selected_picture) selected_picture.data)
  process_cover_image env (stagedPath file_path selected_picture)
  pure (some (stagedPath file_path selected_picture))

/-- Body of the `try` in `extract_art_mutagen`, before the catch-all. -/
def extractBody (env : Env) (file_path : Path) : M (Option Path) := do
  let content ← readFileM file_path
  match mutagenLoad env content with
  | none => pure none
  | some file_obj => do
    let pictures_data ← picturesFor env file_path content file_obj
    match pictures_data with
    | [] => pure none
    | selected_picture :: _ => stagePicture env file_path selected_picture

/-- Translation of `extract_art_mutagen(file_path)`.  The whole body runs
under `try ... except Exception`, which reports and returns `None`; the
leading event records that the decoder was invoked on this file. -/
def extract_art_mutagen (env : Env) (file_path : Path) : M (Option Path) := do
  logEvent (.extractAttempt file_path)
  pyTryExc (extractBody env file_path)
    (fun e => do
      logEvent (.print ("Error extracting art from " ++ pathStr file_path ++
        " with mutagen: " ++ excMsg e))
      pure none)

/-- The success continuation of the loop in `handle_audio_files`: move the
staged cover to the folder's `cover.jpg` and report; the surrounding
`return` stops the loop. -/
def coverFound (env : Env) (directory audio_file_path cover_path : Path) : M Unit := do
  let final_cover_dest := directory ++ [COVER_FILENAME]
  moveM env cover_path final_cover_dest
  logEvent (.print ("Cover image extracted from " ++ baseName audio_file_path ++
    " using mutagen, processed, and saved as " ++ COVER_FILENAME ++
    " in " ++ pathStr directory))

/-- The `for audio_file_path in audio_files` loop of `handle_audio_files`. -/
def haLoop (env : Env) (directory : Path) : List Path → M Unit
  | [] => pure ()
  | audio_file_path :: rest => do
    let cover_path ← extract_art_mutagen env audio_file_path
    match cover_path with
    | some cp => coverFound env directory audio_file_path cp
    | none => haLoop env directory rest

/-- The list comprehension of `handle_audio_files`: direct children whose
name ends (case-sensitively) in one of the five supported extensions, in
listing order. -/
def audioFilter (names : List String) : List String :=
  names.filter (fun f => SUPPORTED_EXTENSIONS.any (fun e => strEndsWith f e))

/-- Translation of `handle_audio_files(directory, temp_folder)`.  Note the
`temp_folder` parameter is, as in the source, never used. -/
def handle_audio_files (env : Env) (directory temp_folder : Path) : M Unit := do
  let names ← listdirM directory
  let audio_files := (audioFilter names).map (fun f => directory ++ [f])
  haLoop env directory audio_files

/-- The per-folder body of the walk loop in `process_images`: normalize an
existing non-empty `cover.jpg`, otherwise attempt extraction (passing the
unused `<tempdir>/cover_extraction_temp` staging argument). -/
def folderStep (env : Env) (root : Path) : M Unit := do
  let s ← getSt
  let cover_path := root ++ [COVER_FILENAME]
  if pathExistsB s cover_path && decide (0 < getsizeB env s cover_path) then
    process_cover_image env cover_path
  else
    handle_audio_files env root (tmpRoot ++ [TEMP_FOLDER_NAME])

/-- The `for root, dirs, _ in os.walk(root_dir)` loop of `process_images`,
with the `processed_folders` guard and the `folders_processed` counter. -/
def processLoop (env : Env) :
    List (Path × List String) → List Path → Nat → M Nat
  | [], _, folders_processed => pure folders_processed
  | (root, _) :: rest, processed_folders, folders_processed => do
    interruptCheck
    if root ∈ processed_folders then
      processLoop env rest processed_folders folders_processed
    else do
      logEvent (.visit root)
      folderStep env root
      processLoop env rest (processed_folders ++ [root]) (folders_processed + 1)

/-- Translation of `process_images(root_dir)`: walk the tree (with
`.rockbox` pruned from child listings), process each folder, and print the
summary when at least one folder was processed. -/
def process_images (env : Env) : M Unit := do
  let s ← getSt
  let n ← processLoop env (walkList s.tree s.rootPath) [] 0
  if 0 < n then
    logEvent (.print ("\n" ++ Nat.repr n ++ " folder(s) processed."))
  else
    pure ()

/-- Translation of `clear_temp_directory()`: remove the staging directory
`<tempdir>/cover_extraction_temp_extract` if it exists; silently do
nothing when it does not.  (In the abstract filesystem `rmtree` cannot
fail, so the source's `except OSError` branch is dead.)  The `clearCall`
event records each invocation. -/
def clear_temp_directory : M Unit := do
  logEvent .clearCall
  let s ← getSt
  if pathExistsB s tempExtractDir then do
    rmtreeM tempExtractDir
    logEvent (.print ("Successfully cleared temporary directory: " ++
      pathStr tempExtractDir))
  else
    pure ()

/-- Translation of `main(root_directory)`:
`try: process_images(...) except KeyboardInterrupt: print(...)` with a
`finally` that always runs `clear_temp_directory()`; a non-interrupt
exception propagates after the cleanup.  `finallyReraise` is the
`finally`-then-reraise path. -/
def finallyReraise (e : PyExc) : M Unit := fun s1 =>
  match clear_temp_directory s1 with
  | .ok _ t => .exc e t
  | .exc e2 t => .exc e2 t

def pymain (env : Env) : M Unit := fun s =>
  match process_images env s with
  | .ok _ s1 => clear_temp_directory s1
  | .exc PyExc.keyboardInterrupt s1 =>
    (mBind (logEvent (.print "\nProcessing interrupted by user."))
      (fun _ => clear_temp_directory)) s1
  | .exc e s1 => finallyReraise e s1

/-! ### Trace observers -/

/-- Is this event an invocation of the cleanup routine? -/
def isClear : Event → Bool
  | .clearCall => true
  | _ => false

/-- Number of cleanup invocations recorded in a trace. -/
def countClears (evs : List Event) : Nat := (evs.filter isClear).length

/-- The folder paths visited, in order, as recorded in a trace. -/
def visitsOf (evs : List Event) : List Path :=
  evs.filterMap (fun e => match e with | .visit p => some p | _ => none)

/-- Number of visits of one particular folder recorded in a trace. -/
def countVisits (evs : List Event) (p : Path) : Nat :=
  (visitsOf evs).count p

theorem countClears_append (a b : List Event) :
    countClears (a ++ b) = countClears a + countClears b := by
  simp [countClears, List.filter_append]

theorem visitsOf_append (a b : List Event) :
    visitsOf (a ++ b) = visitsOf a ++ visitsOf b := by
  simp [visitsOf]

/-! ### Run lemmas for the monad -/

theorem run_bind {α β : Type} (x : M α) (f : α → M β) (s : St) :
    (x >>= f) s =
      match x s with
      | .ok a s' => f a s'
      | .exc e s' => .exc e s' := rfl

theorem run_bind_ok {α β : Type} {x : M α} {f : α → M β} {s s' : St} {a : α}
    (h : x s = .ok a s') : (x >>= f) s = f a s' := by
  rw [run_bind, h]

theorem run_bind_exc {α β : Type} {x : M α} {f : α → M β} {s s' : St} {e : PyExc}
    (h : x s = .exc e s') : (x >>= f) s = .exc e s' := by
  rw [run_bind, h]

theorem run_pure {α : Type} (a : α) (s : St) : (pure a : M α) s = .ok a s := rfl

/-! ### Effect predicates

`Steady m` says `m` does not touch the walked tree, the root path or the
count of cleanup calls, and does not introduce an interrupt budget.
`NeverKbd m` says `m` never lets a `KeyboardInterrupt` propagate.  Both
are closed under the monad operations and hold for all primitives used at
the relevant places; together they carry claims C1 and C2. -/

def Steady {α : Type} (m : M α) : Prop := ∀ s,
  (resSt (m s)).tree = s.tree ∧
  (resSt (m s)).rootPath = s.rootPath ∧
  countClears (resSt (m s)).events = countClears s.events ∧
  (s.interruptAfter = none → (resSt (m s)).interruptAfter = none)

def NeverKbd {α : Type} (m : M α) : Prop :=
  ∀ s, excOf (m s) ≠ some PyExc.keyboardInterrupt

theorem steady_pure {α : Type} (a : α) : Steady (pure a : M α) := by
  intro s
  exact ⟨rfl, rfl, rfl, fun h => h⟩

theorem steady_bind {α β : Type} {x : M α} {f : α → M β}
    (hx : Steady x) (hf : ∀ a, Steady (f a)) : Steady (x >>= f) := by
  intro s
  rw [run_bind]
  cases h : x s with
  | ok a s' =>
    have h1 := hx s
    rw [h] at h1
    have h2 := (hf a) s'
    simp only [resSt] at h1
    refine ⟨?_, ?_, ?_, ?_⟩
    · rw [h2.1, h1.1]
    · rw [h2.2.1, h1.2.1]
    · rw [h2.2.2.1, h1.2.2.1]
    · intro hi
      exact h2.2.2.2 (h1.2.2.2 hi)
  | exc e s' =>
    have h1 := hx s
    rw [h] at h1
    exact h1

theorem neverKbd_pure {α : Type} (a : α) : NeverKbd (pure a : M α) := by
  intro s
  simp [run_pure, excOf]

theorem neverKbd_bind {α β : Type} {x : M α} {f : α → M β}
    (hx : NeverKbd x) (hf : ∀ a, NeverKbd (f a)) : NeverKbd (x >>= f) := by
  intro s
  rw [run_bind]
  cases h : x s with
  | ok a s' => exact (hf a) s'
  | exc e s' =>
    have := hx s
    rw [h] at this
    exact this

theorem steady_getSt : Steady getSt := by
  intro s
  exact ⟨rfl, rfl, rfl, fun h => h⟩

theorem neverKbd_getSt : NeverKbd getSt := by
  intro s
  simp [getSt, excOf]

theorem steady_logEvent (e : Event) (he : isClear e = false) : Steady (logEvent e) := by
  intro s
  refine ⟨rfl, rfl, ?_, fun h => h⟩
  simp [logEvent, resSt, countClears_append, countClears, he]

theorem neverKbd_logEvent (e : Event) : NeverKbd (logEvent e) := by
  intro s
  simp [logEvent, excOf]

theorem steady_readFileM (p : Path) : Steady (readFileM p) := by
  intro s
  unfold readFileM
  cases lookupFile s.files p <;> exact ⟨rfl, rfl, rfl, fun h => h⟩

theorem neverKbd_readFileM (p : Path) : NeverKbd (readFileM p) := by
  intro s
  unfold readFileM
  cases lookupFile s.files p <;> simp [excOf]

theorem steady_writeFileM (p : Path) (c : FileContent) : Steady (writeFileM p c) := by
  intro s
  exact ⟨rfl, rfl, rfl, fun h => h⟩

theorem neverKbd_writeFileM (p : Path) (c : FileContent) : NeverKbd (writeFileM p c) := by
  intro s
  simp [writeFileM, excOf]

theorem steady_makedirsM (p : Path) : Steady (makedirsM p) := by
  intro s
  exact ⟨rfl, rfl, rfl, fun h => h⟩

theorem neverKbd_makedirsM (p : Path) : NeverKbd (makedirsM p) := by
  intro s
  simp [makedirsM, excOf]

theorem steady_moveM (env : Env) (src dst : Path) : Steady (moveM env src dst) := by
  intro s
  unfold moveM
  split
  · exact ⟨rfl, rfl, rfl, fun hi => hi⟩
  · split
    · refine ⟨rfl, rfl, ?_, fun hi => hi⟩
      simp [resSt, countClears_append, countClears, isClear]
    · exact ⟨rfl, rfl, rfl, fun hi => hi⟩

theorem neverKbd_moveM (env : Env) (src dst : Path) : NeverKbd (moveM env src dst) := by
  intro s
  unfold moveM
  split
  · simp [excOf]
  · split <;> simp [excOf]

theorem steady_rmtreeM (p : Path) : Steady (rmtreeM p) := by
  intro s
  exact ⟨rfl, rfl, rfl, fun h => h⟩

theorem steady_listdirM (p : Path) : Steady (listdirM p) := by
  intro s
  unfold listdirM
  by_cases h : pathPre s.rootPath p = true
  · simp only [h, dif_pos]
    cases findNode s.tree (p.drop s.rootPath.length) <;> exact ⟨rfl, rfl, rfl, fun hi => hi⟩
  · simp only [dif_neg h]
    exact ⟨rfl, rfl, rfl, fun hi => hi⟩

theorem neverKbd_listdirM (p : Path) : NeverKbd (listdirM p) := by
  intro s
  unfold listdirM
  by_cases h : pathPre s.rootPath p = true
  · simp only [h, dif_pos]
    cases findNode s.tree (p.drop s.rootPath.length) <;> simp [excOf]
  · simp only [dif_neg h]
    simp [excOf]

theorem steady_interruptCheck : Steady interruptCheck := by
  intro s
  unfold interruptCheck
  cases h : s.interruptAfter with
  | none => exact ⟨rfl, rfl, rfl, fun hi => h⟩
  | some n =>
    cases n with
    | zero =>
      refine ⟨rfl, rfl, rfl, fun hi => ?_⟩
      simp at hi
    | succ k =>
      refine ⟨rfl, rfl, rfl, fun hi => ?_⟩
      simp at hi

theorem steady_pyTryExc {α : Type} {body : M α} {handler : PyExc → M α}
    (hb : Steady body) (hh : ∀ e, Steady (handler e)) : Steady (pyTryExc body handler) := by
  intro s
  unfold pyTryExc
  cases h : body s with
  | ok a s' =>
    have h1 := hb s
    rw [h] at h1
    exact h1
  | exc e s' =>
    have h1 := hb s
    rw [h] at h1
    simp only [resSt] at h1
    by_cases he : e.isException = true
    · simp only [he, if_true]
      have h2 := (hh e) s'
      refine ⟨?_, ?_, ?_, ?_⟩
      · rw [h2.1, h1.1]
      · rw [h2.2.1, h1.2.1]
      · rw [h2.2.2.1, h1.2.2.1]
      · intro hi
        exact h2.2.2.2 (h1.2.2.2 hi)
    · simp only [if_neg he]
      exact h1

theorem neverKbd_pyTryExc {α : Type} {body : M α} {handler : PyExc → M α}
    (hb : NeverKbd body) (hh : ∀ e, NeverKbd (handler e)) :
    NeverKbd (pyTryExc body handler) := by
  intro s
  unfold pyTryExc
  cases h : body s with
  | ok a s' => simp [excOf]
  | exc e s' =>
    by_cases he : e.isException = true
    · simp only [he, if_true]
      exact (hh e) s'
    · simp only [if_neg he]
      have := hb s
      rw [h] at this
      exact this

/-- `pyTryExc` with a never-failing handler and a body that never raises a
`KeyboardInterrupt` always returns normally. -/
theorem pyTryExc_isOk {α : Type} {body : M α} {handler : PyExc → M α}
    (hb : NeverKbd body) (hh : ∀ e s, resIsOk (handler e s) = true) (s : St) :
    resIsOk (pyTryExc body handler s) = true := by
  unfold pyTryExc
  cases h : body s with
  | ok a s' => rfl
  | exc e s' =>
    have hK := hb s
    rw [h] at hK
    simp only [excOf] at hK
    have he : e.isException = true := by
      cases e with
      | keyboardInterrupt => exact absurd rfl hK
      | osError m => rfl
      | otherError m => rfl
    simp only [he, if_true]
    exact hh e s'

theorem steady_ite {α : Type} (c : Prop) [Decidable c] {m1 m2 : M α}
    (h1 : Steady m1) (h2 : Steady m2) : Steady (if c then m1 else m2) := by
  by_cases h : c
  · rw [if_pos h]
    exact h1
  · rw [if_neg h]
    exact h2

theorem neverKbd_ite {α : Type} (c : Prop) [Decidable c] {m1 m2 : M α}
    (h1 : NeverKbd m1) (h2 : NeverKbd m2) : NeverKbd (if c then m1 else m2) := by
  by_cases h : c
  · rw [if_pos h]
    exact h1
  · rw [if_neg h]
    exact h2

/-! ### Effect facts about the translated functions -/

theorem steady_process_cover_image (env : Env) (p : Path) :
    Steady (process_cover_image env p) := by
  intro s
  unfold process_cover_image
  split
  · exact ⟨rfl, rfl, rfl, fun hi => hi⟩
  · split
    · refine ⟨rfl, rfl, ?_, fun hi => hi⟩
      simp [resSt, countClears_append, countClears, isClear]
    · exact ⟨rfl, rfl, rfl, fun hi => hi⟩

theorem neverKbd_process_cover_image (env : Env) (p : Path) :
    NeverKbd (process_cover_image env p) := by
  intro s
  unfold process_cover_image
  split
  · simp [excOf]
  · split <;> simp [excOf]

theorem steady_picturesFor (env : Env) (p : Path) (content : FileContent)
    (fo : MObj) : Steady (picturesFor env p content fo) := by
  unfold picturesFor
  refine steady_ite _ (steady_pure _) ?_
  refine steady_ite _ (steady_pure _) ?_
  refine steady_ite _ (steady_pure _) ?_
  refine steady_ite _ ?_ (steady_pure _)
  split
  all_goals try split
  all_goals try split
  all_goals first
    | exact steady_bind (steady_logEvent _ rfl) (fun _ => steady_pure _)
    | exact steady_pure _

theorem neverKbd_picturesFor (env : Env) (p : Path) (content : FileContent)
    (fo : MObj) : NeverKbd (picturesFor env p content fo) := by
  unfold picturesFor
  refine neverKbd_ite _ (neverKbd_pure _) ?_
  refine neverKbd_ite _ (neverKbd_pure _) ?_
  refine neverKbd_ite _ (neverKbd_pure _) ?_
  refine neverKbd_ite _ ?_ (neverKbd_pure _)
  split
  all_goals try split
  all_goals try split
  all_goals first
    | exact neverKbd_bind (neverKbd_logEvent _) (fun _ => neverKbd_pure _)
    | exact neverKbd_pure _

theorem steady_stagePicture (env : Env) (p : Path) (sel : Pic) :
    Steady (stagePicture env p sel) := by
  unfold stagePicture
  refine steady_bind (steady_makedirsM _) (fun _ => ?_)
  refine steady_bind (steady_writeFileM _ _) (fun _ => ?_)
  refine steady_bind (steady_logEvent _ rfl) (fun _ => ?_)
  exact steady_bind (steady_process_cover_image env _) (fun _ => steady_pure _)

theorem neverKbd_stagePicture (env : Env) (p : Path) (sel : Pic) :
    NeverKbd (stagePicture env p sel) := by
  unfold stagePicture
  refine neverKbd_bind (neverKbd_makedirsM _) (fun _ => ?_)
  refine neverKbd_bind (neverKbd_writeFileM _ _) (fun _ => ?_)
  refine neverKbd_bind (neverKbd_logEvent _) (fun _ => ?_)
  exact neverKbd_bind (neverKbd_process_cover_image env _) (fun _ => neverKbd_pure _)

theorem steady_extractBody (env : Env) (p : Path) : Steady (extractBody env p) := by
  unfold extractBody
  refine steady_bind (steady_readFileM p) (fun content => ?_)
  cases mutagenLoad env content with
  | none => exact steady_pure none
  | some fo =>
    exact steady_bind (steady_picturesFor env p content fo)
      (fun pd => match pd with
        | [] => steady_pure none
        | sel :: rest => steady_stagePicture env p sel)

theorem neverKbd_extractBody (env : Env) (p : Path) : NeverKbd (extractBody env p) := by
  unfold extractBody
  refine neverKbd_bind (neverKbd_readFileM p) (fun content => ?_)
  cases mutagenLoad env content with
  | none => exact neverKbd_pure none
  | some fo =>
    exact neverKbd_bind (neverKbd_picturesFor env p content fo)
      (fun pd => match pd with
        | [] => neverKbd_pure none
        | sel :: rest => neverKbd_stagePicture env p sel)

theorem steady_extract (env : Env) (p : Path) : Steady (extract_art_mutagen env p) := by
  unfold extract_art_mutagen
  refine steady_bind (steady_logEvent _ rfl) (fun _ => ?_)
  refine steady_pyTryExc (steady_extractBody env p) (fun e => ?_)
  exact steady_bind (steady_logEvent _ rfl) (fun _ => steady_pure _)

/-- The catch-all handler of `extract_art_mutagen` always returns `None`
normally. -/
theorem extract_handler_ok (p : Path) (e : PyExc) (s : St) :
    resIsOk ((mBind (logEvent (.print ("Error extracting art from " ++ pathStr p ++
      " with mutagen: " ++ excMsg e))) (fun _ => pure (none : Option Path))) s) = true := rfl

/-- `extract_art_mutagen` never lets an exception propagate. -/
theorem extract_isOk (env : Env) (p : Path) (s : St) :
    resIsOk (extract_art_mutagen env p s) = true := by
  unfold extract_art_mutagen
  rw [run_bind_ok (rfl : logEvent (.extractAttempt p) s =
    .ok () { s with events := s.events ++ [Event.extractAttempt p] })]
  apply pyTryExc_isOk (neverKbd_extractBody env p)
  intro e s'
  rfl

theorem steady_coverFound (env : Env) (d f cp : Path) : Steady (coverFound env d f cp) := by
  unfold coverFound
  exact steady_bind (steady_moveM env cp (d ++ [COVER_FILENAME]))
    (fun _ => steady_logEvent _ rfl)

theorem steady_haLoop (env : Env) (d : Path) : ∀ l, Steady (haLoop env d l)
  | [] => steady_pure ()
  | f :: rest => by
    unfold haLoop
    apply steady_bind (steady_extract env f)
    intro cover_path
    cases cover_path with
    | some cp => exact steady_coverFound env d f cp
    | none => exact steady_haLoop env d rest

theorem steady_handle_audio_files (env : Env) (d tf : Path) :
    Steady (handle_audio_files env d tf) := by
  unfold handle_audio_files
  apply steady_bind (steady_listdirM d)
  intro names
  exact steady_haLoop env d _

theorem steady_folderStep (env : Env) (root : Path) : Steady (folderStep env root) := by
  unfold folderStep
  apply steady_bind steady_getSt
  intro s
  exact steady_ite _ (steady_process_cover_image env _)
    (steady_handle_audio_files env root _)

theorem steady_processLoop (env : Env) :
    ∀ l set cnt, Steady (processLoop env l set cnt)
  | [], _, _ => steady_pure _
  | (root, fl) :: rest, set, cnt => by
    unfold processLoop
    apply steady_bind steady_interruptCheck
    intro _
    by_cases h : root ∈ set
    · rw [if_pos h]
      exact steady_processLoop env rest set cnt
    · rw [if_neg h]
      refine steady_bind (steady_logEvent _ rfl) (fun _ => ?_)
      refine steady_bind (steady_folderStep env root) (fun _ => ?_)
      exact steady_processLoop env rest (set ++ [root]) (cnt + 1)

theorem steady_process_images (env : Env) : Steady (process_images env) := by
  unfold process_images
  apply steady_bind steady_getSt
  intro s
  apply steady_bind (steady_processLoop env _ _ _)
  intro n
  exact steady_ite _ (steady_logEvent _ rfl) (steady_pure ())

/-! ### Run equations and path lemmas -/

@[simp] theorem run_logEvent (e : Event) (s : St) :
    logEvent e s = .ok () { s with events := s.events ++ [e] } := rfl

@[simp] theorem run_getSt (s : St) : getSt s = .ok s s := rfl

@[simp] theorem run_rmtreeM (p : Path) (s : St) :
    rmtreeM p s = .ok () { s with
      files := s.files.filter (fun e => !(pathPre p e.1)),
      dirsMade := s.dirsMade.filter (fun d => !(pathPre p d)) } := rfl

@[simp] theorem run_writeFileM (p : Path) (c : FileContent) (s : St) :
    writeFileM p c s = .ok () { s with files := setFile s.files p c } := rfl

@[simp] theorem run_makedirsM (p : Path) (s : St) :
    makedirsM p s = .ok () { s with
      dirsMade := if p ∈ s.dirsMade then s.dirsMade else s.dirsMade ++ [p] } := rfl

theorem pathExistsB_set_events (s : St) (E : List Event) (p : Path) :
    pathExistsB { s with events := E } p = pathExistsB s p := rfl

theorem pathPre_refl (p : Path) : pathPre p p = true := by
  induction p with
  | nil => rfl
  | cons a as ih => simp [pathPre, ih]

theorem lookupFile_filter_not (l : List (Path × FileContent)) (q : Path) :
    lookupFile (l.filter (fun e => !(pathPre q e.1))) q = none := by
  induction l with
  | nil => rfl
  | cons e rest ih =>
    obtain ⟨p, c⟩ := e
    by_cases hq : pathPre q p = true
    · simp only [List.filter_cons, hq, Bool.not_true]
      simpa using ih
    · have hqf : pathPre q p = false := by
        revert hq
        cases pathPre q p <;> simp
      have hne : p ≠ q := by
        intro he
        rw [he, pathPre_refl q] at hqf
        cases hqf
      simp only [List.filter_cons, hqf, Bool.not_false, if_true]
      simp only [lookupFile, if_neg hne]
      exact ih

theorem not_mem_filter_pre (l : List Path) (q : Path) :
    q ∉ l.filter (fun d => !(pathPre q d)) := by
  intro h
  rw [List.mem_filter] at h
  rw [pathPre_refl] at h
  simp at h

/-! ### Behaviour of the cleanup routine -/

theorem clear_run_exists (s : St) (h : pathExistsB s tempExtractDir = true) :
    clear_temp_directory s = .ok () { s with
      files := s.files.filter (fun e => !(pathPre tempExtractDir e.1)),
      dirsMade := s.dirsMade.filter (fun d => !(pathPre tempExtractDir d)),
      events := s.events ++ [Event.clearCall] ++
        [Event.print ("Successfully cleared temporary directory: " ++
          pathStr tempExtractDir)] } := by
  unfold clear_temp_directory
  simp only [run_bind, run_logEvent, run_getSt, pathExistsB_set_events, h, if_true,
    run_rmtreeM, run_pure]

theorem clear_run_noop (s : St) (h : pathExistsB s tempExtractDir = false) :
    clear_temp_directory s = .ok () { s with events := s.events ++ [Event.clearCall] } := by
  unfold clear_temp_directory
  simp only [run_bind, run_logEvent, run_getSt, pathExistsB_set_events, h,
    Bool.false_eq_true, if_false, run_pure]

theorem clear_ok (s : St) : resIsOk (clear_temp_directory s) = true := by
  by_cases h : pathExistsB s tempExtractDir = true
  · rw [clear_run_exists s h]
    rfl
  · have hf : pathExistsB s tempExtractDir = false := by
      revert h
      cases pathExistsB s tempExtractDir <;> simp
    rw [clear_run_noop s hf]
    rfl

theorem clear_clears (s : St) :
    pathExistsB (resSt (clear_temp_directory s)) tempExtractDir = false := by
  by_cases h : pathExistsB s tempExtractDir = true
  · rw [clear_run_exists s h]
    simp only [resSt, pathExistsB]
    rw [lookupFile_filter_not]
    simp [pathPre_refl]
  · have hf : pathExistsB s tempExtractDir = false := by
      revert h
      cases pathExistsB s tempExtractDir <;> simp
    rw [clear_run_noop s hf]
    simpa only [resSt, pathExistsB_set_events] using hf

theorem clear_adds_one (s : St) :
    countClears (resSt (clear_temp_directory s)).events = countClears s.events + 1 := by
  by_cases h : pathExistsB s tempExtractDir = true
  · rw [clear_run_exists s h]
    simp [resSt, countClears_append, countClears, isClear]
  · have hf : pathExistsB s tempExtractDir = false := by
      revert h
      cases pathExistsB s tempExtractDir <;> simp
    rw [clear_run_noop s hf]
    simp [resSt, countClears_append, countClears, isClear]

/-- The cleanup routine always succeeds, adds exactly one `clearCall`
event, and leaves the staging directory nonexistent. -/
theorem clear_ok_ex (s : St) : ∃ s2, clear_temp_directory s = .ok () s2 ∧
    countClears s2.events = countClears s.events + 1 ∧
    pathExistsB s2 tempExtractDir = false := by
  by_cases h : pathExistsB s tempExtractDir = true
  · refine ⟨_, clear_run_exists s h, ?_, ?_⟩
    · simp [countClears_append, countClears, isClear]
    · simp only [pathExistsB]
      rw [lookupFile_filter_not]
      simp [pathPre_refl]
  · have hf : pathExistsB s tempExtractDir = false := by
      revert h
      cases pathExistsB s tempExtractDir <;> simp
    refine ⟨_, clear_run_noop s hf, ?_, ?_⟩
    · simp [countClears_append, countClears, isClear]
    · simpa only [pathExistsB_set_events] using hf

/-- Branch equation for `main`: normal completion of the walk. -/
theorem pymain_eq_ok {env : Env} {s : St} {a : Unit} {s1 : St}
    (hp : process_images env s = .ok a s1) :
    pymain env s = clear_temp_directory s1 := by
  unfold pymain
  rw [hp]

/-- Branch equation for `main`: `KeyboardInterrupt` is caught and
reported, then the cleanup runs. -/
theorem pymain_eq_kbd {env : Env} {s : St} {s1 : St}
    (hp : process_images env s = .exc .keyboardInterrupt s1) :
    pymain env s = clear_temp_directory
      { s1 with events := s1.events ++ [Event.print "\nProcessing interrupted by user."] } := by
  unfold pymain
  rw [hp]
  exact rfl

/-- Branch equation for `main`: an ordinary exception still runs the
cleanup, then propagates. -/
theorem pymain_eq_exc {env : Env} {s : St} {e : PyExc} {s1 s2 : St}
    (hp : process_images env s = .exc e s1) (he : e.isException = true)
    (hc : clear_temp_directory s1 = .ok () s2) :
    pymain env s = .exc e s2 := by
  have hfin : finallyReraise e s1 = .exc e s2 := by
    unfold finallyReraise
    rw [hc]
  unfold pymain
  rw [hp]
  cases e with
  | keyboardInterrupt => cases he
  | osError m => exact hfin
  | otherError m => exact hfin

/-! ### Behaviour of `main` -/

theorem pymain_clear_once (env : Env) (s : St) :
    countClears (resSt (pymain env s)).events = countClears s.events + 1 := by
  cases hp : process_images env s with
  | ok a s1 =>
    have h1 : countClears s1.events = countClears s.events := by
      have hs := (steady_process_images env) s
      rw [hp] at hs
      exact hs.2.2.1
    obtain ⟨s2, hc, hcount, -⟩ := clear_ok_ex s1
    rw [pymain_eq_ok hp, hc]
    simp only [resSt]
    omega
  | exc e s1 =>
    have h1 : countClears s1.events = countClears s.events := by
      have hs := (steady_process_images env) s
      rw [hp] at hs
      exact hs.2.2.1
    cases e with
    | keyboardInterrupt =>
      rw [pymain_eq_kbd hp]
      obtain ⟨s2, hc, hcount, -⟩ := clear_ok_ex
        { s1 with events := s1.events ++ [Event.print "\nProcessing interrupted by user."] }
      rw [hc]
      simp only [resSt]
      have hcount' : countClears s2.events =
          countClears (s1.events ++ [Event.print "\nProcessing interrupted by user."]) + 1 :=
        hcount
      rw [countClears_append] at hcount'
      have hz : countClears [Event.print "\nProcessing interrupted by user."] = 0 := rfl
      rw [hz] at hcount'
      omega
    | osError m =>
      obtain ⟨s2, hc, hcount, -⟩ := clear_ok_ex s1
      rw [pymain_eq_exc hp rfl hc]
      simp only [resSt]
      omega
    | otherError m =>
      obtain ⟨s2, hc, hcount, -⟩ := clear_ok_ex s1
      rw [pymain_eq_exc hp rfl hc]
      simp only [resSt]
      omega

theorem pymain_no_tempdir (env : Env) (s : St) :
    pathExistsB (resSt (pymain env s)) tempExtractDir = false := by
  cases hp : process_images env s with
  | ok a s1 =>
    obtain ⟨s2, hc, -, hex⟩ := clear_ok_ex s1
    rw [pymain_eq_ok hp, hc]
    simp only [resSt]
    exact hex
  | exc e s1 =>
    cases e with
    | keyboardInterrupt =>
      rw [pymain_eq_kbd hp]
      obtain ⟨s2, hc, -, hex⟩ := clear_ok_ex
        { s1 with events := s1.events ++ [Event.print "\nProcessing interrupted by user."] }
      rw [hc]
      simp only [resSt]
      exact hex
    | osError m =>
      obtain ⟨s2, hc, -, hex⟩ := clear_ok_ex s1
      rw [pymain_eq_exc hp rfl hc]
      simp only [resSt]
      exact hex
    | otherError m =>
      obtain ⟨s2, hc, -, hex⟩ := clear_ok_ex s1
      rw [pymain_eq_exc hp rfl hc]
      simp only [resSt]
      exact hex

/-! ### Concrete fixtures for witnesses and counterexamples -/

/-- A minimal walked tree (one root folder, nothing inside). -/
def treeA : Tree := Tree.node "r" [] []

/-- A state in which the staging directory exists and holds one staged file. -/
def stTemp : St :=
  { files := [(tempExtractDir ++ ["a.jpeg"], FileContent.raw 7)],
    dirsMade := [tempExtractDir], tree := treeA, rootPath := ["r"],
    events := [], interruptAfter := none }

/-- An environment fixture: one mp3 (bytes `1`) with an APIC frame whose
payload `7` decodes as an 800x600 RGBA image; everything else fails. -/
def envFix : Env :=
  { mutagen := fun n =>
      if n = 1 then
        some { tags := some { frames := [("APIC:3", { data := 7, mime := "image/jpeg" })],
                              mbp := MBPVal.absent, truthy := true },
               pictures := none }
      else none,
    mp4parse := fun _ => .error "boom",
    b64decode := fun _ => none,
    flacPic := fun _ => none,
    decodeImage := fun n => if n = 7 then some ⟨800, 600, ColorMode.RGBA⟩ else none,
    rawSize := fun _ => 1,
    moveOk := fun _ _ => true }

/-- A state in which the staging directory does not exist. -/
def stBare : St :=
  { files := [], dirsMade := [], tree := treeA, rootPath := ["r"],
    events := [], interruptAfter := none }

/-! ### Claim C1 -/

/-- C1: in every run of `main` — normal completion, `KeyboardInterrupt`
of the walk, or a propagating error — `clear_temp_directory` runs exactly
once (the `finally`), and afterwards the staging directory
`<tempdir>/cover_extraction_temp_extract` does not exist.  Moreover
`clear_temp_directory` itself never fails: when the staging directory
exists it removes it with everything under it (and reports), and when it
does not exist it is a no-op apart from the trace. -/
theorem claim_C1_cleanup_exactly_once :
    (∀ env s, countClears (resSt (pymain env s)).events = countClears s.events + 1) ∧
    (∀ env s, pathExistsB (resSt (pymain env s)) tempExtractDir = false) ∧
    (∀ s, resIsOk (clear_temp_directory s) = true) ∧
    (∀ s, pathExistsB s tempExtractDir = true →
      clear_temp_directory s = MRes.ok () { s with
        files := s.files.filter (fun e => !(pathPre tempExtractDir e.1)),
        dirsMade := s.dirsMade.filter (fun d => !(pathPre tempExtractDir d)),
        events := s.events ++ [Event.clearCall] ++
          [Event.print ("Successfully cleared temporary directory: " ++
            pathStr tempExtractDir)] }) ∧
    (∀ s, pathExistsB s tempExtractDir = false →
      clear_temp_directory s = MRes.ok () { s with events := s.events ++ [Event.clearCall] }) :=
  ⟨pymain_clear_once, pymain_no_tempdir, clear_ok, clear_run_exists, clear_run_noop⟩

/-- Witness for C1 at concrete states: one with the staging directory
present, one without. -/
theorem claim_C1_cleanup_exactly_once_witness :
    (pathExistsB stTemp tempExtractDir = true ∧
      clear_temp_directory stTemp = MRes.ok () { stTemp with
        files := stTemp.files.filter (fun e => !(pathPre tempExtractDir e.1)),
        dirsMade := stTemp.dirsMade.filter (fun d => !(pathPre tempExtractDir d)),
        events := stTemp.events ++ [Event.clearCall] ++
          [Event.print ("Successfully cleared temporary directory: " ++
            pathStr tempExtractDir)] }) ∧
    (pathExistsB stBare tempExtractDir = false ∧
      clear_temp_directory stBare =
        MRes.ok () { stBare with events := stBare.events ++ [Event.clearCall] }) :=
  ⟨⟨by decide, claim_C1_cleanup_exactly_once.2.2.2.1 stTemp (by decide)⟩,
    ⟨by decide, claim_C1_cleanup_exactly_once.2.2.2.2 stBare (by decide)⟩⟩

/-! ### Association-list and step lemmas -/

theorem lookupFile_setFile (l : List (Path × FileContent)) (p : Path) (c : FileContent) :
    lookupFile (setFile l p c) p = some c := by
  induction l with
  | nil => simp [setFile, lookupFile]
  | cons e rest ih =>
    obtain ⟨q, c0⟩ := e
    by_cases hq : q = p
    · simp [setFile, hq, lookupFile]
    · simp [setFile, hq, lookupFile, ih]

theorem run_interruptCheck_none {s : St} (h : s.interruptAfter = none) :
    interruptCheck s = .ok () s := by
  unfold interruptCheck
  rw [h]

/-- Step equation for the walk loop on a not-yet-visited folder, with no
pending interrupt: visit, process, continue with the folder recorded and
counted. -/
theorem processLoop_cons_new {env : Env} {root : Path} {fl : List String}
    {rest : List (Path × List String)} {set : List Path} {cnt : Nat} {s : St}
    (hi : s.interruptAfter = none) (hmem : root ∉ set) :
    processLoop env ((root, fl) :: rest) set cnt s =
      (logEvent (.visit root) >>= fun _ => folderStep env root >>= fun _ =>
        processLoop env rest (set ++ [root]) (cnt + 1)) s := by
  simp only [processLoop]
  rw [run_bind_ok (run_interruptCheck_none hi)]
  rw [if_neg hmem]

/-- The cover-exists-and-nonempty condition of the walk body, spelt out. -/
theorem coverCondition_iff (env : Env) (s : St) (root : Path) :
    (pathExistsB s (root ++ [COVER_FILENAME]) &&
      decide (0 < getsizeB env s (root ++ [COVER_FILENAME]))) = true ↔
    ∃ c, lookupFile s.files (root ++ [COVER_FILENAME]) = some c ∧
      0 < contentSize env c := by
  constructor
  · intro h
    rw [Bool.and_eq_true] at h
    obtain ⟨h1, h2⟩ := h
    rw [decide_eq_true_eq] at h2
    cases hl : lookupFile s.files (root ++ [COVER_FILENAME]) with
    | none =>
      rw [getsizeB, hl] at h2
      exact absurd h2 (by simp)
    | some c =>
      refine ⟨c, rfl, ?_⟩
      rw [getsizeB, hl] at h2
      exact h2
  · rintro ⟨c, hl, hsz⟩
    rw [Bool.and_eq_true]
    constructor
    · simp [pathExistsB, hl]
    · rw [decide_eq_true_eq, getsizeB, hl]
      exact hsz

/-- When the folder has a non-empty cover file, the walk body normalizes
it in place. -/
theorem folderStep_cover {env : Env} {root : Path} {s : St} {c : FileContent}
    (hc : lookupFile s.files (root ++ [COVER_FILENAME]) = some c)
    (hsz : 0 < contentSize env c) :
    folderStep env root s = process_cover_image env (root ++ [COVER_FILENAME]) s := by
  unfold folderStep
  rw [run_bind_ok (run_getSt s)]
  have h : (pathExistsB s (root ++ [COVER_FILENAME]) &&
      decide (0 < getsizeB env s (root ++ [COVER_FILENAME]))) = true :=
    (coverCondition_iff env s root).2 ⟨c, hc, hsz⟩
  rw [h]
  simp

/-- When the folder has no non-empty cover file, the walk body attempts
extraction, passing the (unused) `<tempdir>/cover_extraction_temp`
argument. -/
theorem folderStep_nocover {env : Env} {root : Path} {s : St}
    (h : (pathExistsB s (root ++ [COVER_FILENAME]) &&
      decide (0 < getsizeB env s (root ++ [COVER_FILENAME]))) = false) :
    folderStep env root s = handle_audio_files env root (tmpRoot ++ [TEMP_FOLDER_NAME]) s := by
  unfold folderStep
  rw [run_bind_ok (run_getSt s)]
  rw [h]
  simp

/-! ### Claim C2 -/

/-- C2: the picture decoder never lets an exception escape to its caller:
for every environment, input path and state it returns normally (with a
staged path or `None`); and when it returns `None` the folder loop simply
moves on to the next candidate file. -/
theorem claim_C2_decoder_never_raises :
    (∀ env p s, resIsOk (extract_art_mutagen env p s) = true) ∧
    (∀ env d f rest s s', extract_art_mutagen env f s = .ok none s' →
      haLoop env d (f :: rest) s = haLoop env d rest s') :=
  ⟨extract_isOk, by
    intro env d f rest s s' h
    simp only [haLoop]
    rw [run_bind_ok h]⟩

/-- Witness for C2: a concrete decoder run that yields `None` (the file is
missing, the raised `OSError` is swallowed), after which the loop
continues with the remaining candidates. -/
theorem claim_C2_decoder_never_raises_witness :
    haLoop envFix ["r"] (["r", "missing.mp3"] :: [["r", "b.mp3"]]) stBare =
      haLoop envFix ["r"] [["r", "b.mp3"]]
        { stBare with events := stBare.events ++
          [Event.extractAttempt ["r", "missing.mp3"],
           Event.print ("Error extracting art from r/missing.mp3 with mutagen: " ++
             "no such file: r/missing.mp3")] } :=
  claim_C2_decoder_never_raises.2 envFix ["r"] ["r", "missing.mp3"] [["r", "b.mp3"]]
    stBare _ rfl

/-! ### Claims C3 and C8: the image normalizer -/

/-- Success equation of `process_cover_image`: convert to RGB, resize to
300x300, overwrite as JPEG quality 85 subsampling 0. -/
theorem process_cover_image_ok {env : Env} {p : Path} {s : St} {c : FileContent}
    {m : ImageMeta} (hc : lookupFile s.files p = some c) (hd : decodeImg env c = some m) :
    process_cover_image env p s = .ok () { s with files := (setFile s.files p
      (FileContent.jpegSaved (pilResize (pilConvertRGB m) 300 300) 85 0)) } := by
  unfold process_cover_image
  simp only [hc, hd]

/-- Failure equation of `process_cover_image`: an undecodable file is
reported and left untouched. -/
theorem process_cover_image_fail {env : Env} {p : Path} {s : St} {c : FileContent}
    (hc : lookupFile s.files p = some c) (hd : decodeImg env c = none) :
    process_cover_image env p s = .ok () { s with events := s.events ++
      [Event.print ("Error processing '" ++ baseName p ++
        "': cannot identify image file")] } := by
  unfold process_cover_image
  simp only [hc, hd]

/-- C3: on any image file the normalizer can decode, the file at that
path is overwritten with a JPEG of exactly 300x300 pixels in RGB mode,
quality 85, subsampling 0 (4:4:4), the target size being forced with no
aspect-ratio preservation; and a second run of the normalizer on its own
output again yields exactly a 300x300 RGB JPEG at that path. -/
theorem claim_C3_normalizer_300_rgb_jpeg :
    ∀ env p s c m, lookupFile s.files p = some c → decodeImg env c = some m →
      ∃ s', process_cover_image env p s = .ok () s' ∧
        s'.files = setFile s.files p
          (FileContent.jpegSaved ⟨300, 300, ColorMode.RGB⟩ 85 0) ∧
        lookupFile s'.files p =
          some (FileContent.jpegSaved ⟨300, 300, ColorMode.RGB⟩ 85 0) ∧
        pilResize (pilConvertRGB m) 300 300 = ⟨300, 300, ColorMode.RGB⟩ ∧
        ∃ s'', process_cover_image env p s' = .ok () s'' ∧
          lookupFile s''.files p =
            some (FileContent.jpegSaved ⟨300, 300, ColorMode.RGB⟩ 85 0) := by
  intro env p s c m hc hd
  have hmeta : pilResize (pilConvertRGB m) 300 300 = (⟨300, 300, ColorMode.RGB⟩ : ImageMeta) := rfl
  have h1 := process_cover_image_ok hc hd
  rw [hmeta] at h1
  have hc2 : lookupFile ({ s with files := (setFile s.files p
      (FileContent.jpegSaved ⟨300, 300, ColorMode.RGB⟩ 85 0)) } : St).files p =
      some (FileContent.jpegSaved ⟨300, 300, ColorMode.RGB⟩ 85 0) :=
    lookupFile_setFile _ _ _
  have hd2 : decodeImg env (FileContent.jpegSaved ⟨300, 300, ColorMode.RGB⟩ 85 0) =
      some ⟨300, 300, ColorMode.RGB⟩ := rfl
  have hmeta2 : pilResize (pilConvertRGB (⟨300, 300, ColorMode.RGB⟩ : ImageMeta)) 300 300 =
      (⟨300, 300, ColorMode.RGB⟩ : ImageMeta) := rfl
  have h2 := process_cover_image_ok hc2 hd2
  rw [hmeta2] at h2
  exact ⟨_, h1, rfl, lookupFile_setFile _ _ _, hmeta, _, h2, lookupFile_setFile _ _ _⟩

/-- A state whose only file is an undecoded raw image at the canonical
cover path of folder `r`. -/
def stC3 : St :=
  { files := [(["r", "cover.jpg"], FileContent.raw 7)], dirsMade := [],
    tree := Tree.node "r" [] [], rootPath := ["r"], events := [], interruptAfter := none }

/-- Witness for C3 on a concrete 800x600 RGBA input. -/
theorem claim_C3_normalizer_300_rgb_jpeg_witness :
    ∃ s', process_cover_image envFix ["r", "cover.jpg"] stC3 = .ok () s' ∧
      s'.files = setFile stC3.files ["r", "cover.jpg"]
        (FileContent.jpegSaved ⟨300, 300, ColorMode.RGB⟩ 85 0) ∧
      lookupFile s'.files ["r", "cover.jpg"] =
        some (FileContent.jpegSaved ⟨300, 300, ColorMode.RGB⟩ 85 0) ∧
      pilResize (pilConvertRGB ⟨800, 600, ColorMode.RGBA⟩) 300 300 =
        ⟨300, 300, ColorMode.RGB⟩ ∧
      ∃ s'', process_cover_image envFix ["r", "cover.jpg"] s' = .ok () s'' ∧
        lookupFile s''.files ["r", "cover.jpg"] =
          some (FileContent.jpegSaved ⟨300, 300, ColorMode.RGB⟩ 85 0) :=
  claim_C3_normalizer_300_rgb_jpeg envFix ["r", "cover.jpg"] stC3
    (FileContent.raw 7) ⟨800, 600, ColorMode.RGBA⟩ rfl rfl

/-- C8: when the contents at an image path cannot be decoded, the
normalizer reports the offending file name, leaves the file map
byte-for-byte unchanged and returns normally; and when `process_images`
hits such a pre-existing non-empty `cover.jpg`, the walk logs the report
and simply continues with the remaining folders, the folder still being
recorded and counted. -/
theorem claim_C8_normalizer_failure_isolated :
    (∀ env p s c, lookupFile s.files p = some c → decodeImg env c = none →
      process_cover_image env p s = .ok () { s with events := s.events ++
        [Event.print ("Error processing '" ++ baseName p ++
          "': cannot identify image file")] }) ∧
    (∀ env root fl rest set cnt s c,
      s.interruptAfter = none → root ∉ set →
      lookupFile s.files (root ++ [COVER_FILENAME]) = some c →
      0 < contentSize env c →
      decodeImg env c = none →
      processLoop env ((root, fl) :: rest) set cnt s =
        processLoop env rest (set ++ [root]) (cnt + 1)
          { s with events := (s.events ++ [Event.visit root]) ++
            [Event.print ("Error processing '" ++
              baseName (root ++ [COVER_FILENAME]) ++
              "': cannot identify image file")] }) := by
  constructor
  · intro env p s c hc hd
    exact process_cover_image_fail hc hd
  · intro env root fl rest set cnt s c hi hmem hc hsz hd
    rw [processLoop_cons_new hi hmem]
    rw [run_bind_ok (run_logEvent _ _)]
    have hc1 : lookupFile ({ s with events := s.events ++ [Event.visit root] } : St).files
        (root ++ [COVER_FILENAME]) = some c := hc
    have hstep : folderStep env root { s with events := s.events ++ [Event.visit root] } =
        .ok () { s with events := (s.events ++ [Event.visit root]) ++
          [Event.print ("Error processing '" ++ baseName (root ++ [COVER_FILENAME]) ++
            "': cannot identify image file")] } := by
      rw [folderStep_cover hc1 hsz]
      exact process_cover_image_fail hc1 hd
    rw [run_bind_ok hstep]

/-- A state whose folder `r` has a non-empty but undecodable `cover.jpg`
(bytes `9`, which `envFix` cannot decode). -/
def stC8 : St :=
  { files := [(["r", "cover.jpg"], FileContent.raw 9)], dirsMade := [],
    tree := Tree.node "r" [] [], rootPath := ["r"], events := [], interruptAfter := none }

/-- Witness for C8 at the concrete undecodable cover. -/
theorem claim_C8_normalizer_failure_isolated_witness :
    (process_cover_image envFix ["r", "cover.jpg"] stC8 = .ok () { stC8 with
      events := stC8.events ++ [Event.print ("Error processing '" ++
        baseName ["r", "cover.jpg"] ++ "': cannot identify image file")] }) ∧
    (processLoop envFix [(["r"], [])] [] 0 stC8 =
      processLoop envFix [] ([] ++ [["r"]]) (0 + 1)
        { stC8 with events := (stC8.events ++ [Event.visit ["r"]]) ++
          [Event.print ("Error processing '" ++
            baseName (["r"] ++ [COVER_FILENAME]) ++
            "': cannot identify image file")] }) :=
  ⟨claim_C8_normalizer_failure_isolated.1 envFix ["r", "cover.jpg"] stC8
      (FileContent.raw 9) rfl rfl,
   claim_C8_normalizer_failure_isolated.2 envFix ["r"] [] [] [] 0 stC8
      (FileContent.raw 9) rfl (by decide) rfl (by decide) rfl⟩

/-! ### Claim C4: the candidate selector -/

/-- All decoder calls on the given candidates (from the given state on)
yield no picture; the per-candidate result states are threaded through. -/
def AllNone (env : Env) : List Path → St → Prop
  | [], _ => True
  | f :: rest, s => ∃ s', extract_art_mutagen env f s = .ok none s' ∧ AllNone env rest s'

theorem readFileM_ok_inv {p : Path} {s : St} {content : FileContent} {t : St}
    (h : readFileM p s = .ok content t) :
    t = s ∧ lookupFile s.files p = some content := by
  unfold readFileM at h
  cases hl : lookupFile s.files p with
  | none =>
    rw [hl] at h
    cases h
  | some c =>
    rw [hl] at h
    simp only [MRes.ok.injEq] at h
    exact ⟨h.2.symm, congrArg some h.1⟩

/-- Computations that only append events: they succeed and change nothing
but the trace. -/
def PureLog {α : Type} (m : M α) : Prop :=
  ∀ s, ∃ a E, m s = .ok a { s with events := s.events ++ E }

theorem pureLog_pure {α : Type} (a : α) : PureLog (pure a : M α) := by
  intro s
  refine ⟨a, [], ?_⟩
  rw [List.append_nil]
  rfl

theorem pureLog_logEvent (e : Event) : PureLog (logEvent e) := by
  intro s
  exact ⟨(), [e], rfl⟩

theorem pureLog_bind {α β : Type} {x : M α} {f : α → M β}
    (hx : PureLog x) (hf : ∀ a, PureLog (f a)) : PureLog (x >>= f) := by
  intro s
  obtain ⟨a, E1, h1⟩ := hx s
  obtain ⟨b, E2, h2⟩ := (hf a) { s with events := s.events ++ E1 }
  refine ⟨b, E1 ++ E2, ?_⟩
  rw [run_bind_ok h1, h2, List.append_assoc]

theorem pureLog_ite {α : Type} (c : Prop) [Decidable c] {m1 m2 : M α}
    (h1 : PureLog m1) (h2 : PureLog m2) : PureLog (if c then m1 else m2) := by
  by_cases h : c
  · rw [if_pos h]
    exact h1
  · rw [if_neg h]
    exact h2

/-- The picture-gathering chain never raises and only logs. -/
theorem pureLog_picturesFor (env : Env) (p : Path) (content : FileContent)
    (fo : MObj) : PureLog (picturesFor env p content fo) := by
  unfold picturesFor
  refine pureLog_ite _ (pureLog_pure _) ?_
  refine pureLog_ite _ (pureLog_pure _) ?_
  refine pureLog_ite _ (pureLog_pure _) ?_
  refine pureLog_ite _ ?_ (pureLog_pure _)
  split
  all_goals try split
  all_goals try split
  all_goals first
    | exact pureLog_bind (pureLog_logEvent _) (fun _ => pureLog_pure _)
    | exact pureLog_pure _

/-- Staging a selected picture always succeeds, returns the staged path,
and records the staging write of the selected bytes in the trace. -/
theorem stagePicture_some (env : Env) (p : Path) (sel : Pic) (s : St) :
    ∃ s', stagePicture env p sel s = .ok (some (stagedPath p sel)) s' ∧
      Event.stage (stagedPath p sel) sel.data ∈ s'.events ∧
      ∃ c, lookupFile s'.files (stagedPath p sel) = some c := by
  unfold stagePicture
  rw [run_bind_ok (run_makedirsM _ _)]
  rw [run_bind_ok (run_writeFileM _ _ _)]
  rw [run_bind_ok (run_logEvent _ _)]
  have hlk : lookupFile (setFile ({ s with dirsMade := if tempExtractDir ∈ s.dirsMade
      then s.dirsMade else s.dirsMade ++ [tempExtractDir] } : St).files
      (stagedPath p sel) (FileContent.raw sel.data)) (stagedPath p sel) =
      some (FileContent.raw sel.data) := lookupFile_setFile _ _ _
  cases hd : decodeImg env (FileContent.raw sel.data) with
  | none =>
    rw [run_bind_ok (process_cover_image_fail hlk hd)]
    refine ⟨_, rfl, ?_, ?_⟩
    · simp [List.mem_append]
    · exact ⟨_, lookupFile_setFile _ _ _⟩
  | some m =>
    rw [run_bind_ok (process_cover_image_ok hlk hd)]
    refine ⟨_, rfl, ?_, ?_⟩
    · simp [List.mem_append]
    · exact ⟨_, lookupFile_setFile _ _ _⟩


/-- Any normal `some`-result of the extraction body is a path inside the
fixed `_extract` staging directory, and the staged file is present in the
result state. -/
theorem extractBody_some_shape (env : Env) (p : Path) (s : St) (q : Path) (s' : St)
    (h : extractBody env p s = .ok (some q) s') :
    (∃ nm, q = tempExtractDir ++ [nm]) ∧ ∃ c, lookupFile s'.files q = some c := by
  unfold extractBody at h
  cases hr : readFileM p s with
  | exc e t =>
    rw [run_bind_exc hr] at h
    cases h
  | ok content t =>
    rw [run_bind_ok hr] at h
    cases hm : mutagenLoad env content with
    | none =>
      rw [hm] at h
      simp [run_pure] at h
    | some fo =>
      rw [hm] at h
      simp only [run_bind] at h
      cases hp : picturesFor env p content fo t with
      | exc e t2 =>
        rw [hp] at h
        simp at h
      | ok pd t2 =>
        rw [hp] at h
        cases pd with
        | nil =>
          simp [run_pure] at h
        | cons sel rest =>
          simp only [] at h
          obtain ⟨s2, h2, _, c', hc'⟩ := stagePicture_some env p sel t2
          rw [h2] at h
          simp only [MRes.ok.injEq, Option.some.injEq] at h
          obtain ⟨hq, hs⟩ := h
          subst hs
          subst hq
          exact ⟨⟨stagedName p sel, rfl⟩, c', hc'⟩

/-- Any normal `some`-result of `extract_art_mutagen` is a path inside
the fixed `_extract` staging directory, with the staged file present. -/
theorem extract_some_shape (env : Env) (p : Path) (s : St) (q : Path) (s' : St)
    (h : extract_art_mutagen env p s = .ok (some q) s') :
    (∃ nm, q = tempExtractDir ++ [nm]) ∧ ∃ c, lookupFile s'.files q = some c := by
  unfold extract_art_mutagen at h
  rw [run_bind_ok (run_logEvent _ _)] at h
  unfold pyTryExc at h
  cases hb : extractBody env p { s with events := s.events ++ [Event.extractAttempt p] } with
  | ok r t =>
    rw [hb] at h
    simp only [MRes.ok.injEq] at h
    obtain ⟨h1, h2⟩ := h
    subst h1
    subst h2
    exact extractBody_some_shape env p _ q t hb
  | exc e t =>
    rw [hb] at h
    simp only [] at h
    by_cases he : e.isException = true
    · rw [if_pos he] at h
      simp [run_bind, run_logEvent, run_pure] at h
    · rw [if_neg he] at h
      cases h



/-! ### Claim C10 -/

/-- C10: the `temp_folder` argument of `handle_audio_files` has no effect
whatsoever — any two values give identical runs; every staged path the
decoder returns lives in the fixed `<tempdir>/cover_extraction_temp_extract`
directory, which is distinct from the `<tempdir>/cover_extraction_temp`
path that the walk body passes in when it attempts extraction. -/
theorem claim_C10_temp_folder_unused :
    (∀ env d t1 t2 s, handle_audio_files env d t1 s = handle_audio_files env d t2 s) ∧
    (∀ env p s q s', extract_art_mutagen env p s = .ok (some q) s' →
      ∃ nm, q = tempExtractDir ++ [nm]) ∧
    tempExtractDir ≠ tmpRoot ++ [TEMP_FOLDER_NAME] ∧
    (∀ env root s, (pathExistsB s (root ++ [COVER_FILENAME]) &&
        decide (0 < getsizeB env s (root ++ [COVER_FILENAME]))) = false →
      folderStep env root s = handle_audio_files env root (tmpRoot ++ [TEMP_FOLDER_NAME]) s) :=
  ⟨fun env d t1 t2 s => rfl,
   fun env p s q s' h => (extract_some_shape env p s q s' h).1, by decide,
   fun env root s h => folderStep_nocover h⟩

/-- A state with one mp3 (bytes `1`, which `envFix` decodes) in folder
`r` and no cover. -/
def stC10 : St :=
  { files := [(["r", "a.mp3"], FileContent.raw 1)], dirsMade := [],
    tree := Tree.node "r" [] ["a.mp3"], rootPath := ["r"], events := [],
    interruptAfter := none }

/-- Witness for C10 at concrete inputs: two different staging arguments
give the same run; a concrete successful extraction stages under the
`_extract` directory; the cover-less walk body calls the selector with
the unused `cover_extraction_temp` argument. -/
theorem claim_C10_temp_folder_unused_witness :
    (handle_audio_files envFix ["r"] ["tmp", "x"] stC10 =
      handle_audio_files envFix ["r"] ["tmp", "y"] stC10) ∧
    (∃ q s', extract_art_mutagen envFix ["r", "a.mp3"] stC10 = .ok (some q) s' ∧
      ∃ nm, q = tempExtractDir ++ [nm]) ∧
    (folderStep envFix ["r"] stC10 =
      handle_audio_files envFix ["r"] (tmpRoot ++ [TEMP_FOLDER_NAME]) stC10) :=
  ⟨claim_C10_temp_folder_unused.1 envFix ["r"] ["tmp", "x"] ["tmp", "y"] stC10,
   ⟨_, _, rfl, claim_C10_temp_folder_unused.2.1 envFix ["r", "a.mp3"] stC10 _ _ rfl⟩,
   claim_C10_temp_folder_unused.2.2.2 envFix ["r"] stC10 (by decide)⟩

/-- The extraction body can only raise out of the initial file read, so a
propagating exception leaves the state untouched. -/
theorem extractBody_exc_inv (env : Env) (p : Path) (s : St) (e : PyExc) (t : St)
    (h : extractBody env p s = .exc e t) : t = s := by
  unfold extractBody at h
  cases hr : readFileM p s with
  | exc e2 t2 =>
    rw [run_bind_exc hr] at h
    unfold readFileM at hr
    cases hl : lookupFile s.files p with
    | none =>
      rw [hl] at hr
      simp only [MRes.exc.injEq] at hr
      simp only [MRes.exc.injEq] at h
      rw [← h.2, ← hr.2]
    | some c =>
      rw [hl] at hr
      cases hr
  | ok content t2 =>
    obtain ⟨ht2, hl⟩ := readFileM_ok_inv hr
    rw [ht2] at hr
    rw [run_bind_ok hr] at h
    cases hm : mutagenLoad env content with
    | none =>
      rw [hm] at h
      simp [run_pure] at h
    | some fo =>
      rw [hm] at h
      simp only [run_bind] at h
      obtain ⟨pd, E, hp⟩ := pureLog_picturesFor env p content fo s
      rw [hp] at h
      cases pd with
      | nil => simp [run_pure] at h
      | cons sel rest =>
        simp only [] at h
        obtain ⟨s2, h2, -⟩ := stagePicture_some env p sel
          { s with events := s.events ++ E }
        rw [h2] at h
        cases h

/-- A `None` result of the extraction body leaves the file map untouched. -/
theorem extractBody_none_files (env : Env) (p : Path) (s : St) (s' : St)
    (h : extractBody env p s = .ok none s') : s'.files = s.files := by
  unfold extractBody at h
  cases hr : readFileM p s with
  | exc e2 t2 =>
    rw [run_bind_exc hr] at h
    cases h
  | ok content t2 =>
    obtain ⟨ht2, hl⟩ := readFileM_ok_inv hr
    rw [ht2] at hr
    rw [run_bind_ok hr] at h
    cases hm : mutagenLoad env content with
    | none =>
      rw [hm] at h
      simp only [run_pure, MRes.ok.injEq] at h
      rw [← h.2]
    | some fo =>
      rw [hm] at h
      simp only [run_bind] at h
      obtain ⟨pd, E, hp⟩ := pureLog_picturesFor env p content fo s
      rw [hp] at h
      cases pd with
      | nil =>
        simp only [run_pure, MRes.ok.injEq] at h
        rw [← h.2]
      | cons sel rest =>
        simp only [] at h
        obtain ⟨s2, h2, -⟩ := stagePicture_some env p sel
          { s with events := s.events ++ E }
        rw [h2] at h
        simp at h

/-- A `None` result of the decoder leaves the file map untouched (only
the trace and possibly the staging-directory marker change). -/
theorem extract_none_files {env : Env} {f : Path} {s s' : St}
    (h : extract_art_mutagen env f s = .ok none s') : s'.files = s.files := by
  unfold extract_art_mutagen at h
  rw [run_bind_ok (run_logEvent _ _)] at h
  unfold pyTryExc at h
  cases hb : extractBody env f { s with events := s.events ++ [Event.extractAttempt f] } with
  | ok r t =>
    rw [hb] at h
    simp only [MRes.ok.injEq] at h
    obtain ⟨h1, h2⟩ := h
    subst h1
    subst h2
    have hfiles := extractBody_none_files env f
      { s with events := s.events ++ [Event.extractAttempt f] } t hb
    exact hfiles
  | exc e t =>
    rw [hb] at h
    simp only [] at h
    by_cases he : e.isException = true
    · rw [if_pos he] at h
      rw [run_bind_ok (run_logEvent _ _), run_pure] at h
      simp only [MRes.ok.injEq] at h
      have ht := extractBody_exc_inv env f _ e t hb
      rw [← h.2, ht]
    · rw [if_neg he] at h
      cases h

/-- Step equation of the folder loop: a candidate that yields no picture
is skipped and the loop moves to the next one. -/
theorem haLoop_none {env : Env} {d f : Path} {rest : List Path} {s s' : St}
    (h : extract_art_mutagen env f s = .ok none s') :
    haLoop env d (f :: rest) s = haLoop env d rest s' := by
  simp only [haLoop]
  rw [run_bind_ok h]

/-- Step equation of the folder loop: the first candidate that yields a
picture wins; the loop performs the move-and-report and stops (the
remaining candidates do not appear). -/
theorem haLoop_some {env : Env} {d f : Path} {rest : List Path} {s s' : St} {p : Path}
    (h : extract_art_mutagen env f s = .ok (some p) s') :
    haLoop env d (f :: rest) s = coverFound env d f p s' := by
  simp only [haLoop]
  rw [run_bind_ok h]

/-- If every candidate yields no picture, the loop completes normally and
the file map — in particular the folder's `cover.jpg` — is unchanged. -/
theorem haLoop_allNone (env : Env) (d : Path) :
    ∀ cands s, AllNone env cands s →
      ∃ s', haLoop env d cands s = .ok () s' ∧ s'.files = s.files
  | [], s, _ => ⟨s, rfl, rfl⟩
  | f :: rest, s, h => by
    obtain ⟨s1, hx, hrest⟩ := h
    obtain ⟨s2, h2, hf2⟩ := haLoop_allNone env d rest s1 hrest
    refine ⟨s2, ?_, ?_⟩
    · rw [haLoop_none hx]
      exact h2
    · rw [hf2, extract_none_files hx]

/-- Equation of `handle_audio_files` under a successful directory
listing: it runs the loop on exactly the suffix-filtered candidates, in
listing order. -/
theorem handle_audio_files_eq {env : Env} {d tf : Path} {s : St} {names : List String}
    (h : listdirM d s = .ok names s) :
    handle_audio_files env d tf s =
      haLoop env d ((audioFilter names).map (fun f => d ++ [f])) s := by
  unfold handle_audio_files
  rw [run_bind_ok h]

/-- Success equation of the move-and-report step: the staged file is
re-keyed to the folder's `cover.jpg` and the success line is printed. -/
theorem coverFound_ok {env : Env} {d f p : Path} {s : St} {c : FileContent}
    (hc : lookupFile s.files p = some c)
    (hm : env.moveOk p (d ++ [COVER_FILENAME]) = true) :
    coverFound env d f p s = .ok () { s with
      files := (setFile (eraseFile s.files p) (d ++ [COVER_FILENAME]) c),
      events := ((s.events ++ [Event.moveFile p (d ++ [COVER_FILENAME])]) ++
        [Event.print ("Cover image extracted from " ++ baseName f ++
          " using mutagen, processed, and saved as " ++ COVER_FILENAME ++
          " in " ++ pathStr d)]) } := by
  unfold coverFound
  have hmv : moveM env p (d ++ [COVER_FILENAME]) s = .ok () { s with
      files := (setFile (eraseFile s.files p) (d ++ [COVER_FILENAME]) c),
      events := (s.events ++ [Event.moveFile p (d ++ [COVER_FILENAME])]) } := by
    unfold moveM
    simp only [hc, hm, if_true]
  rw [run_bind_ok hmv]
  rfl

/-- C4: `handle_audio_files` considers exactly the direct children whose
names end case-sensitively in one of the five supported extensions, in
listing order with no sort (an order-preserving sublist of the listing);
it invokes the decoder on each in turn, skipping candidates that yield
nothing, stopping at the first success by moving that picture to the
folder's `cover.jpg` (attempting no further files), and leaves the file
map — hence the cover — untouched when every candidate yields nothing or
there are no audio files. -/
theorem claim_C4_candidate_selector :
    (∀ l : List String, (audioFilter l).Sublist l) ∧
    (∀ (f : String) (l : List String), f ∈ audioFilter l ↔ f ∈ l ∧
      (strEndsWith f ".mp3" = true ∨ strEndsWith f ".flac" = true ∨
       strEndsWith f ".opus" = true ∨ strEndsWith f ".ogg" = true ∨
       strEndsWith f ".m4a" = true)) ∧
    (∀ env d tf s names, listdirM d s = .ok names s →
      handle_audio_files env d tf s =
        haLoop env d ((audioFilter names).map (fun f => d ++ [f])) s) ∧
    (∀ env d f rest s s', extract_art_mutagen env f s = .ok none s' →
      haLoop env d (f :: rest) s = haLoop env d rest s') ∧
    (∀ env d f rest s p s', extract_art_mutagen env f s = .ok (some p) s' →
      haLoop env d (f :: rest) s = coverFound env d f p s') ∧
    (∀ env d f p s c, lookupFile s.files p = some c →
      env.moveOk p (d ++ [COVER_FILENAME]) = true →
      coverFound env d f p s = .ok () { s with
        files := (setFile (eraseFile s.files p) (d ++ [COVER_FILENAME]) c),
        events := ((s.events ++ [Event.moveFile p (d ++ [COVER_FILENAME])]) ++
          [Event.print ("Cover image extracted from " ++ baseName f ++
            " using mutagen, processed, and saved as " ++ COVER_FILENAME ++
            " in " ++ pathStr d)]) }) ∧
    (∀ env d cands s, AllNone env cands s →
      ∃ s', haLoop env d cands s = .ok () s' ∧ s'.files = s.files) := by
  refine ⟨?_, ?_, ?_, ?_, ?_, ?_, ?_⟩
  · intro l
    exact List.filter_sublist l
  · intro f l
    unfold audioFilter
    rw [List.mem_filter]
    constructor
    · rintro ⟨h1, h2⟩
      refine ⟨h1, ?_⟩
      simp only [SUPPORTED_EXTENSIONS, List.any_cons, List.any_nil,
        Bool.or_eq_true, Bool.or_false] at h2
      tauto
    · rintro ⟨h1, h2⟩
      refine ⟨h1, ?_⟩
      simp only [SUPPORTED_EXTENSIONS, List.any_cons, List.any_nil,
        Bool.or_eq_true, Bool.or_false]
      tauto
  · intro env d tf s names h
    exact handle_audio_files_eq h
  · intro env d f rest s s' h
    exact haLoop_none h
  · intro env d f rest s p s' h
    exact haLoop_some h
  · intro env d f p s c hc hm
    exact coverFound_ok hc hm
  · intro env d cands s h
    exact haLoop_allNone env d cands s h

/-- A state with one decodable mp3, a flac, and distractor listing
entries in folder `r`. -/
def stC4 : St :=
  { files := [(["r", "a.mp3"], FileContent.raw 1), (["r", "x.flac"], FileContent.raw 2)],
    dirsMade := [], tree := Tree.node "r" [] ["b.txt", "missing.mp3", "a.mp3"],
    rootPath := ["r"], events := [], interruptAfter := none }

/-- Witness for C4 at concrete inputs: the filter applied through a real
listing, a skipped candidate, a first success that stops the loop, a
concrete move to `cover.jpg`, and an all-fail run that leaves the files
untouched. -/
theorem claim_C4_candidate_selector_witness :
    (handle_audio_files envFix ["r"] (tmpRoot ++ [TEMP_FOLDER_NAME]) stC4 =
      haLoop envFix ["r"] ((audioFilter ["b.txt", "missing.mp3", "a.mp3"]).map
        (fun f => ["r"] ++ [f])) stC4) ∧
    (∃ s', extract_art_mutagen envFix ["r", "missing.mp3"] stC4 = .ok none s' ∧
      haLoop envFix ["r"] ([["r", "missing.mp3"], ["r", "a.mp3"]]) stC4 =
        haLoop envFix ["r"] [["r", "a.mp3"]] s') ∧
    (∃ p s', extract_art_mutagen envFix ["r", "a.mp3"] stC4 = .ok (some p) s' ∧
      haLoop envFix ["r"] [["r", "a.mp3"]] stC4 =
        coverFound envFix ["r"] ["r", "a.mp3"] p s') ∧
    (coverFound envFix ["r"] ["r", "a.mp3"] (tempExtractDir ++ ["a.jpeg"]) stTemp =
      .ok () { stTemp with
        files := (setFile (eraseFile stTemp.files (tempExtractDir ++ ["a.jpeg"]))
          (["r"] ++ [COVER_FILENAME]) (FileContent.raw 7)),
        events := ((stTemp.events ++
          [Event.moveFile (tempExtractDir ++ ["a.jpeg"]) (["r"] ++ [COVER_FILENAME])]) ++
          [Event.print ("Cover image extracted from " ++ baseName ["r", "a.mp3"] ++
            " using mutagen, processed, and saved as " ++ COVER_FILENAME ++
            " in " ++ pathStr ["r"])]) }) ∧
    (∃ s', haLoop envFix ["r"] [["r", "missing.mp3"]] stC4 = .ok () s' ∧
      s'.files = stC4.files) :=
  ⟨claim_C4_candidate_selector.2.2.1 envFix ["r"] (tmpRoot ++ [TEMP_FOLDER_NAME]) stC4 _ rfl,
   ⟨_, rfl, claim_C4_candidate_selector.2.2.2.1 envFix ["r"] ["r", "missing.mp3"]
      [["r", "a.mp3"]] stC4 _ rfl⟩,
   ⟨_, _, rfl, claim_C4_candidate_selector.2.2.2.2.1 envFix ["r"] ["r", "a.mp3"]
      [] stC4 _ _ rfl⟩,
   claim_C4_candidate_selector.2.2.2.2.2.1 envFix ["r"] ["r", "a.mp3"]
      (tempExtractDir ++ ["a.jpeg"]) stTemp (FileContent.raw 7) (by decide) rfl,
   claim_C4_candidate_selector.2.2.2.2.2.2 envFix ["r"] [["r", "missing.mp3"]] stC4
      ⟨_, rfl, trivial⟩⟩

/-! ### Claim C5: Ogg/Opus picture comments -/

/-- The ogg branch of `picturesFor` on an Ogg/Opus extension with truthy
tags: exactly the first successfully decoded `METADATA_BLOCK_PICTURE`
candidate (if any) is collected. -/
theorem picturesFor_ogg {env : Env} {f : Path} {content : FileContent} {fo : MObj}
    {t : PyTags} (hext : fileExtOf f = ".opus" ∨ fileExtOf f = ".ogg")
    (ht : fo.tags = some t) (htr : t.truthy = true) :
    picturesFor env f content fo =
      pure ((oggFirstPic env (mbpCandidates t.mbp)).toList) := by
  cases hext with
  | inl h =>
    unfold picturesFor
    rw [h]
    rw [if_neg (by decide), if_neg (by decide), if_pos (by decide)]
    simp [ht, htr]
  | inr h =>
    unfold picturesFor
    rw [h]
    rw [if_neg (by decide), if_neg (by decide), if_pos (by decide)]
    simp [ht, htr]

/-- Success run of `extract_art_mutagen` on an Ogg/Opus file whose
comment candidates resolve to `pic`: the picture is staged (the staged
bytes are `pic.data`) and the staged path is returned. -/
theorem extract_ogg_run {env : Env} {f : Path} {s : St} {n0 : Nat} {fo : MObj}
    {t : PyTags} {pic : Pic}
    (hl : lookupFile s.files f = some (FileContent.raw n0))
    (hm : env.mutagen n0 = some fo)
    (hext : fileExtOf f = ".opus" ∨ fileExtOf f = ".ogg")
    (ht : fo.tags = some t) (htr : t.truthy = true)
    (hfirst : oggFirstPic env (mbpCandidates t.mbp) = some pic) :
    ∃ s', extract_art_mutagen env f s = .ok (some (stagedPath f pic)) s' ∧
      Event.stage (stagedPath f pic) pic.data ∈ s'.events := by
  have hl1 : lookupFile ({ s with events := s.events ++ [Event.extractAttempt f] } : St).files
      f = some (FileContent.raw n0) := hl
  have hr1 : readFileM f { s with events := s.events ++ [Event.extractAttempt f] } =
      .ok (FileContent.raw n0) { s with events := s.events ++ [Event.extractAttempt f] } := by
    unfold readFileM
    rw [hl1]
  have hm1 : mutagenLoad env (FileContent.raw n0) = some fo := hm
  obtain ⟨s2, hstage, hmem, _⟩ := stagePicture_some env f pic
    { s with events := s.events ++ [Event.extractAttempt f] }
  have hbody : extractBody env f { s with events := s.events ++ [Event.extractAttempt f] } =
      .ok (some (stagedPath f pic)) s2 := by
    unfold extractBody
    rw [run_bind_ok hr1]
    rw [hm1]
    simp only [run_bind]
    rw [picturesFor_ogg hext ht htr]
    rw [hfirst]
    simp only [run_pure]
    exact hstage
  refine ⟨s2, ?_, hmem⟩
  unfold extract_art_mutagen
  rw [run_bind_ok (run_logEvent _ _)]
  unfold pyTryExc
  rw [hbody]

/-- C5: on an Ogg/Opus file the decoder walks the
`METADATA_BLOCK_PICTURE` candidates in order, skipping entries whose
base64 decoding or FLAC-picture parsing fails, and the first entry that
decodes wins; in particular with one invalid entry followed by one valid
entry the valid entry's picture is staged and returned. -/
theorem claim_C5_ogg_invalid_then_valid :
    (∀ env c rest, env.b64decode c = none →
      oggFirstPic env (c :: rest) = oggFirstPic env rest) ∧
    (∀ env c rest bs, env.b64decode c = some bs → env.flacPic bs = none →
      oggFirstPic env (c :: rest) = oggFirstPic env rest) ∧
    (∀ env c rest bs pic, env.b64decode c = some bs → env.flacPic bs = some pic →
      oggFirstPic env (c :: rest) = some pic) ∧
    (∀ env bad good m pic, env.b64decode bad = none → env.b64decode good = some m →
      env.flacPic m = some pic → oggFirstPic env [bad, good] = some pic) ∧
    (∀ env f s n0 fo t pic, lookupFile s.files f = some (FileContent.raw n0) →
      env.mutagen n0 = some fo →
      (fileExtOf f = ".opus" ∨ fileExtOf f = ".ogg") →
      fo.tags = some t → t.truthy = true →
      oggFirstPic env (mbpCandidates t.mbp) = some pic →
      ∃ s', extract_art_mutagen env f s = .ok (some (stagedPath f pic)) s' ∧
        Event.stage (stagedPath f pic) pic.data ∈ s'.events) := by
  have hskip1 : ∀ (env : Env) c rest, env.b64decode c = none →
      oggFirstPic env (c :: rest) = oggFirstPic env rest := by
    intro env c rest h
    simp only [oggFirstPic, h]
  have hskip2 : ∀ (env : Env) c rest bs, env.b64decode c = some bs →
      env.flacPic bs = none → oggFirstPic env (c :: rest) = oggFirstPic env rest := by
    intro env c rest bs h1 h2
    simp only [oggFirstPic, h1, h2]
  have hwin : ∀ (env : Env) c rest bs pic, env.b64decode c = some bs →
      env.flacPic bs = some pic → oggFirstPic env (c :: rest) = some pic := by
    intro env c rest bs pic h1 h2
    simp only [oggFirstPic, h1, h2]
  refine ⟨hskip1, hskip2, hwin, ?_, ?_⟩
  · intro env bad good m pic hbad hgood hflac
    rw [hskip1 env bad [good] hbad]
    exact hwin env good [] m pic hgood hflac
  · intro env f s n0 fo t pic hl hm hext ht htr hfirst
    exact extract_ogg_run hl hm hext ht htr hfirst

/-- An environment for the Ogg scenario: file bytes `3` parse as an Ogg
with a two-entry `METADATA_BLOCK_PICTURE` list; `"bad"` fails base64
decoding, `"good"` decodes to bytes `40`, which parse as a PNG picture
with payload `9`. -/
def envOgg : Env :=
  { mutagen := fun n =>
      if n = 3 then
        some { tags := some { frames := [],
                              mbp := MBPVal.listV ["bad", "good"], truthy := true },
               pictures := none }
      else none,
    mp4parse := fun _ => .error "boom",
    b64decode := fun c => if c = "good" then some 40 else none,
    flacPic := fun n => if n = 40 then some { data := 9, mime := "image/png" } else none,
    decodeImage := fun n => if n = 9 then some ⟨640, 480, ColorMode.RGB⟩ else none,
    rawSize := fun _ => 1,
    moveOk := fun _ _ => true }

/-- A state with one Ogg file (bytes `3`) in folder `r`. -/
def stC5 : St :=
  { files := [(["r", "t.ogg"], FileContent.raw 3)], dirsMade := [],
    tree := Tree.node "r" [] ["t.ogg"], rootPath := ["r"], events := [],
    interruptAfter := none }

/-- Witness for C5: the concrete invalid-then-valid list yields the valid
entry's picture, all the way through a concrete extraction run. -/
theorem claim_C5_ogg_invalid_then_valid_witness :
    (oggFirstPic envOgg ["bad", "good"] = some { data := 9, mime := "image/png" }) ∧
    (∃ s', extract_art_mutagen envOgg ["r", "t.ogg"] stC5 =
        .ok (some (stagedPath ["r", "t.ogg"] { data := 9, mime := "image/png" })) s' ∧
      Event.stage (stagedPath ["r", "t.ogg"] { data := 9, mime := "image/png" })
        (Pic.data { data := 9, mime := "image/png" }) ∈ s'.events) :=
  ⟨claim_C5_ogg_invalid_then_valid.2.2.2.1 envOgg "bad" "good" 40
      { data := 9, mime := "image/png" } rfl rfl rfl,
   claim_C5_ogg_invalid_then_valid.2.2.2.2 envOgg ["r", "t.ogg"] stC5 3 _ _
      { data := 9, mime := "image/png" } rfl rfl (Or.inr rfl) rfl rfl rfl⟩

/-! ### Visit-trace preservation

`KeepsFilter sel m` says `m` adds no event selected by `sel` to the
trace.  Instantiated with `isVisit` it shows that only the walk loop
itself records folder visits. -/

/-- Is this event a folder visit? -/
def isVisit : Event → Bool
  | .visit _ => true
  | _ => false

def KeepsFilter (sel : Event → Bool) {α : Type} (m : M α) : Prop :=
  ∀ s, (resSt (m s)).events.filter sel = s.events.filter sel

theorem keepsFilter_pure {sel : Event → Bool} {α : Type} (a : α) :
    KeepsFilter sel (pure a : M α) := by
  intro s
  rfl

theorem keepsFilter_bind {sel : Event → Bool} {α β : Type} {x : M α} {f : α → M β}
    (hx : KeepsFilter sel x) (hf : ∀ a, KeepsFilter sel (f a)) :
    KeepsFilter sel (x >>= f) := by
  intro s
  rw [run_bind]
  cases h : x s with
  | ok a s' =>
    have h1 := hx s
    rw [h] at h1
    simp only [resSt] at h1
    have h2 := (hf a) s'
    rw [h2]
    exact h1
  | exc e s' =>
    have h1 := hx s
    rw [h] at h1
    exact h1

theorem keepsFilter_ite {sel : Event → Bool} {α : Type} (c : Prop) [Decidable c]
    {m1 m2 : M α} (h1 : KeepsFilter sel m1) (h2 : KeepsFilter sel m2) :
    KeepsFilter sel (if c then m1 else m2) := by
  by_cases h : c
  · rw [if_pos h]
    exact h1
  · rw [if_neg h]
    exact h2

theorem keepsFilter_pyTryExc {sel : Event → Bool} {α : Type} {body : M α}
    {handler : PyExc → M α} (hb : KeepsFilter sel body)
    (hh : ∀ e, KeepsFilter sel (handler e)) : KeepsFilter sel (pyTryExc body handler) := by
  intro s
  unfold pyTryExc
  cases h : body s with
  | ok a s' =>
    have h1 := hb s
    rw [h] at h1
    exact h1
  | exc e s' =>
    have h1 := hb s
    rw [h] at h1
    simp only [resSt] at h1
    by_cases he : e.isException = true
    · simp only [he, if_true]
      have h2 := (hh e) s'
      rw [h2]
      exact h1
    · simp only [if_neg he]
      exact h1

theorem keepsFilter_logEvent {sel : Event → Bool} {e : Event} (he : sel e = false) :
    KeepsFilter sel (logEvent e) := by
  intro s
  simp [logEvent, resSt, List.filter_append, he]

theorem keepsFilter_getSt {sel : Event → Bool} : KeepsFilter sel getSt := by
  intro s
  rfl

theorem keepsFilter_readFileM {sel : Event → Bool} (p : Path) :
    KeepsFilter sel (readFileM p) := by
  intro s
  unfold readFileM
  cases lookupFile s.files p <;> rfl

theorem keepsFilter_writeFileM {sel : Event → Bool} (p : Path) (c : FileContent) :
    KeepsFilter sel (writeFileM p c) := by
  intro s
  rfl

theorem keepsFilter_makedirsM {sel : Event → Bool} (p : Path) :
    KeepsFilter sel (makedirsM p) := by
  intro s
  rfl

theorem keepsFilter_moveM {sel : Event → Bool} (env : Env) (src dst : Path)
    (he : sel (Event.moveFile src dst) = false) : KeepsFilter sel (moveM env src dst) := by
  intro s
  unfold moveM
  split
  · rfl
  · split
    · simp [resSt, List.filter_append, he]
    · rfl

theorem keepsFilter_listdirM {sel : Event → Bool} (p : Path) :
    KeepsFilter sel (listdirM p) := by
  intro s
  unfold listdirM
  by_cases h : pathPre s.rootPath p = true
  · simp only [h, dif_pos]
    cases findNode s.tree (p.drop s.rootPath.length) <;> rfl
  · simp only [dif_neg h]
    rfl

theorem keepsVisits_process_cover_image (env : Env) (p : Path) :
    KeepsFilter isVisit (process_cover_image env p) := by
  intro s
  unfold process_cover_image
  split
  · rfl
  · split
    · simp [resSt, List.filter_append, isVisit]
    · rfl

theorem keepsVisits_picturesFor (env : Env) (p : Path) (content : FileContent)
    (fo : MObj) : KeepsFilter isVisit (picturesFor env p content fo) := by
  unfold picturesFor
  refine keepsFilter_ite _ (keepsFilter_pure _) ?_
  refine keepsFilter_ite _ (keepsFilter_pure _) ?_
  refine keepsFilter_ite _ (keepsFilter_pure _) ?_
  refine keepsFilter_ite _ ?_ (keepsFilter_pure _)
  split
  all_goals try split
  all_goals try split
  all_goals first
    | exact keepsFilter_bind (keepsFilter_logEvent rfl) (fun _ => keepsFilter_pure _)
    | exact keepsFilter_pure _

theorem keepsVisits_stagePicture (env : Env) (p : Path) (sel : Pic) :
    KeepsFilter isVisit (stagePicture env p sel) := by
  unfold stagePicture
  refine keepsFilter_bind (keepsFilter_makedirsM _) (fun _ => ?_)
  refine keepsFilter_bind (keepsFilter_writeFileM _ _) (fun _ => ?_)
  refine keepsFilter_bind (keepsFilter_logEvent rfl) (fun _ => ?_)
  exact keepsFilter_bind (keepsVisits_process_cover_image env _) (fun _ => keepsFilter_pure _)

theorem keepsVisits_extractBody (env : Env) (p : Path) :
    KeepsFilter isVisit (extractBody env p) := by
  unfold extractBody
  refine keepsFilter_bind (keepsFilter_readFileM p) (fun content => ?_)
  cases mutagenLoad env content with
  | none => exact keepsFilter_pure none
  | some fo =>
    exact keepsFilter_bind (keepsVisits_picturesFor env p content fo)
      (fun pd => match pd with
        | [] => keepsFilter_pure none
        | sel :: rest => keepsVisits_stagePicture env p sel)

theorem keepsVisits_extract (env : Env) (p : Path) :
    KeepsFilter isVisit (extract_art_mutagen env p) := by
  unfold extract_art_mutagen
  refine keepsFilter_bind (keepsFilter_logEvent rfl) (fun _ => ?_)
  refine keepsFilter_pyTryExc (keepsVisits_extractBody env p) (fun e => ?_)
  exact keepsFilter_bind (keepsFilter_logEvent rfl) (fun _ => keepsFilter_pure _)

theorem keepsVisits_coverFound (env : Env) (d f cp : Path) :
    KeepsFilter isVisit (coverFound env d f cp) := by
  unfold coverFound
  exact keepsFilter_bind (keepsFilter_moveM env cp (d ++ [COVER_FILENAME]) rfl)
    (fun _ => keepsFilter_logEvent rfl)

theorem keepsVisits_haLoop (env : Env) (d : Path) :
    ∀ l, KeepsFilter isVisit (haLoop env d l)
  | [] => keepsFilter_pure ()
  | f :: rest => by
    unfold haLoop
    refine keepsFilter_bind (keepsVisits_extract env f) (fun cover_path => ?_)
    cases cover_path with
    | some cp => exact keepsVisits_coverFound env d f cp
    | none => exact keepsVisits_haLoop env d rest

theorem keepsVisits_handle_audio_files (env : Env) (d tf : Path) :
    KeepsFilter isVisit (handle_audio_files env d tf) := by
  unfold handle_audio_files
  refine keepsFilter_bind (keepsFilter_listdirM d) (fun names => ?_)
  exact keepsVisits_haLoop env d _

theorem keepsVisits_folderStep (env : Env) (root : Path) :
    KeepsFilter isVisit (folderStep env root) := by
  unfold folderStep
  refine keepsFilter_bind keepsFilter_getSt (fun s => ?_)
  exact keepsFilter_ite _ (keepsVisits_process_cover_image env _)
    (keepsVisits_handle_audio_files env root _)

/-- Visits recorded in a trace are determined by its `isVisit` filter. -/
theorem visitsOf_eq_of_filter {a b : List Event}
    (h : a.filter isVisit = b.filter isVisit) : visitsOf a = visitsOf b := by
  have key : ∀ l : List Event, visitsOf l = visitsOf (l.filter isVisit) := by
    intro l
    induction l with
    | nil => rfl
    | cons e rest ih =>
      cases e with
      | visit p => simp [visitsOf, List.filter, isVisit] at ih ⊢; exact ih
      | print m => simp [visitsOf, List.filter, isVisit] at ih ⊢; exact ih
      | extractAttempt p => simp [visitsOf, List.filter, isVisit] at ih ⊢; exact ih
      | stage p b => simp [visitsOf, List.filter, isVisit] at ih ⊢; exact ih
      | moveFile p q => simp [visitsOf, List.filter, isVisit] at ih ⊢; exact ih
      | clearCall => simp [visitsOf, List.filter, isVisit] at ih ⊢; exact ih
  rw [key a, key b, h]

/-! ### Structure of the pruned walk -/

theorem pruneRockbox_sublist (l : List Tree) : (pruneRockbox l).Sublist l := by
  induction l with
  | nil => simp [pruneRockbox]
  | cons c rest ih =>
    rw [pruneRockbox]
    split
    · exact List.sublist_cons_self c rest
    · exact List.Sublist.cons₂ c ih

theorem pruneRockbox_sub {l : List Tree} {c : Tree} (h : c ∈ pruneRockbox l) : c ∈ l :=
  (pruneRockbox_sublist l).mem h

theorem wfbAll_mem : ∀ (l : List Tree) (c : Tree), wfbAll l = true → c ∈ l → wfb c = true := by
  intro l
  induction l with
  | nil =>
    intro c _ hc
    cases hc
  | cons d rest ih =>
    intro c h hc
    rw [wfbAll, Bool.and_eq_true] at h
    rcases List.mem_cons.1 hc with rfl | hm
    · exact h.1
    · exact ih c h.2 hm

theorem wfb_parts {n : String} {subs : List Tree} {files : List String}
    (h : wfb (Tree.node n subs files) = true) :
    (subs.map Tree.name).Nodup ∧ wfbAll subs = true := by
  rw [wfb, Bool.and_eq_true, decide_eq_true_eq] at h
  exact h

theorem walkAll_mem : ∀ (l : List Tree) (cur : Path) (x : Path × List String),
    x ∈ walkAll l cur ↔ ∃ c, c ∈ l ∧ x ∈ walkList c (cur ++ [Tree.name c]) := by
  intro l
  induction l with
  | nil =>
    intro cur x
    simp [walkAll]
  | cons c cs ih =>
    intro cur x
    rw [walkAll, List.mem_append, ih]
    constructor
    · rintro (h | ⟨d, hd, hw⟩)
      · exact ⟨c, List.mem_cons_self c cs, h⟩
      · exact ⟨d, List.mem_cons_of_mem c hd, hw⟩
    · rintro ⟨d, hd, hw⟩
      rcases List.mem_cons.1 hd with rfl | hd2
      · exact Or.inl hw
      · exact Or.inr ⟨d, hd2, hw⟩

theorem pathPre_append (p x : Path) : pathPre p (p ++ x) = true := by
  induction p with
  | nil => rfl
  | cons a as ih => simp [pathPre, ih]

theorem walkList_prefix : ∀ t rp r fl, (r, fl) ∈ walkList t rp → ∃ rel, r = rp ++ rel := by
  intro t
  induction t using treeInd with
  | h n subs files ih =>
    intro rp r fl hmem
    rw [walkList] at hmem
    rcases List.mem_cons.1 hmem with h1 | h2
    · refine ⟨[], ?_⟩
      rw [List.append_nil]
      rw [Prod.mk.injEq] at h1
      exact h1.1
    · rw [walkAll_mem] at h2
      obtain ⟨c, hcl, hcw⟩ := h2
      obtain ⟨rel, hrel⟩ := ih c (pruneRockbox_sub hcl) (rp ++ [Tree.name c]) r fl hcw
      refine ⟨Tree.name c :: rel, ?_⟩
      rw [hrel, List.append_assoc, List.singleton_append]

theorem walkAll_prefix (l : List Tree) (cur : Path) (r : Path) (fl : List String)
    (h : (r, fl) ∈ walkAll l cur) :
    ∃ c, c ∈ l ∧ ∃ rel, r = cur ++ (Tree.name c :: rel) := by
  rw [walkAll_mem] at h
  obtain ⟨c, hc, hw⟩ := h
  obtain ⟨rel, hrel⟩ := walkList_prefix c (cur ++ [Tree.name c]) r fl hw
  refine ⟨c, hc, rel, ?_⟩
  rw [hrel, List.append_assoc, List.singleton_append]

theorem find_name_nodup : ∀ (subs : List Tree) (c : Tree),
    (subs.map Tree.name).Nodup → c ∈ subs →
    subs.find? (fun x => decide (Tree.name x = Tree.name c)) = some c := by
  intro subs
  induction subs with
  | nil =>
    intro c _ hc
    cases hc
  | cons d rest ih =>
    intro c hnd hc
    rw [List.map_cons, List.nodup_cons] at hnd
    rcases List.mem_cons.1 hc with rfl | hmem
    · simp [List.find?]
    · by_cases hdc : Tree.name d = Tree.name c
      · exact absurd (hdc ▸ List.mem_map_of_mem Tree.name hmem) hnd.1
      · rw [List.find?_cons_of_neg _ (by simpa using hdc)]
        exact ih c hnd.2 hmem

theorem pruneRockbox_name : ∀ (l : List Tree) (c : Tree),
    (l.map Tree.name).Nodup → c ∈ pruneRockbox l → Tree.name c ≠ ".rockbox" := by
  intro l
  induction l with
  | nil =>
    intro c _ hc
    cases hc
  | cons d rest ih =>
    intro c hnd hc
    rw [List.map_cons, List.nodup_cons] at hnd
    rw [pruneRockbox] at hc
    by_cases hd : Tree.name d = ".rockbox"
    · rw [if_pos hd] at hc
      intro hceq
      exact hnd.1 ((hd.trans hceq.symm) ▸ List.mem_map_of_mem Tree.name hc)
    · rw [if_neg hd] at hc
      rcases List.mem_cons.1 hc with rfl | hmem
      · exact hd
      · exact ih c hnd.2 hmem

theorem walkList_findNode : ∀ t, wfb t = true → ∀ rp r fl, (r, fl) ∈ walkList t rp →
    pathPre rp r = true ∧
    ∃ t', findNode t (r.drop rp.length) = some t' ∧ Tree.filesOf t' = fl := by
  intro t
  induction t using treeInd with
  | h n subs files ih =>
    intro hwf rp r fl hmem
    have hparts := wfb_parts hwf
    rw [walkList] at hmem
    rcases List.mem_cons.1 hmem with h1 | h2
    · rw [Prod.mk.injEq] at h1
      obtain ⟨hr, hfl⟩ := h1
      subst hr
      subst hfl
      refine ⟨pathPre_refl _, Tree.node n subs _, ?_, rfl⟩
      rw [List.drop_length]
      rfl
    · rw [walkAll_mem] at h2
      obtain ⟨c, hcl, hcw⟩ := h2
      have hcsubs := pruneRockbox_sub hcl
      have hcwf : wfb c = true := wfbAll_mem subs c hparts.2 hcsubs
      obtain ⟨hpre, t', hfind, hfl⟩ := ih c hcsubs hcwf (rp ++ [Tree.name c]) r fl hcw
      obtain ⟨rel, hrel⟩ := walkList_prefix c (rp ++ [Tree.name c]) r fl hcw
      have hdrop : r.drop rp.length = Tree.name c :: rel := by
        rw [hrel, List.append_assoc, List.singleton_append, List.drop_left]
      have hdrop1 : r.drop (rp ++ [Tree.name c]).length = rel := by
        rw [hrel, List.drop_left]
      constructor
      · rw [hrel, List.append_assoc, List.singleton_append]
        exact pathPre_append rp (Tree.name c :: rel)
      · rw [hdrop, findNode]
        rw [show Tree.subs (Tree.node n subs files) = subs from rfl]
        rw [find_name_nodup subs c hparts.1 hcsubs]
        rw [hdrop1] at hfind
        exact ⟨t', hfind, hfl⟩

theorem walkAll_roots_nodup : ∀ (l : List Tree),
    (∀ c, c ∈ l → ∀ rp', ((walkList c rp').map Prod.fst).Nodup) →
    (l.map Tree.name).Nodup → ∀ cur, ((walkAll l cur).map Prod.fst).Nodup := by
  intro l
  induction l with
  | nil =>
    intro _ _ cur
    simp [walkAll]
  | cons c cs ih =>
    intro hP hnd cur
    rw [List.map_cons, List.nodup_cons] at hnd
    rw [walkAll, List.map_append]
    apply List.Nodup.append
    · exact hP c (List.mem_cons_self c cs) (cur ++ [Tree.name c])
    · exact ih (fun d hd rp' => hP d (List.mem_cons_of_mem c hd) rp') hnd.2 cur
    · intro r hr1 hr2
      rw [List.mem_map] at hr1 hr2
      obtain ⟨⟨r1, fl1⟩, hm1, hfst1⟩ := hr1
      obtain ⟨⟨r2, fl2⟩, hm2, hfst2⟩ := hr2
      obtain ⟨rel1, hrel1⟩ := walkList_prefix c (cur ++ [Tree.name c]) r1 fl1 hm1
      obtain ⟨d, hd, rel2, hrel2⟩ := walkAll_prefix cs cur r2 fl2 hm2
      have hfst1' : r1 = r := hfst1
      have hfst2' : r2 = r := hfst2
      have hr12 : r1 = r2 := by
        rw [hfst1', hfst2']
      rw [hrel1, hrel2, List.append_assoc, List.singleton_append] at hr12
      have hnames : Tree.name c = Tree.name d := by
        have h2 := List.append_cancel_left hr12
        rw [List.cons.injEq] at h2
        exact h2.1
      exact hnd.1 (hnames ▸ List.mem_map_of_mem Tree.name hd)

theorem walkList_roots_nodup : ∀ t, wfb t = true →
    ∀ rp, ((walkList t rp).map Prod.fst).Nodup := by
  intro t
  induction t using treeInd with
  | h n subs files ih =>
    intro hwf rp
    have hparts := wfb_parts hwf
    rw [walkList, List.map_cons, List.nodup_cons]
    constructor
    · intro hmem
      rw [List.mem_map] at hmem
      obtain ⟨⟨r, fl⟩, hm, hfst⟩ := hmem
      obtain ⟨c, hc, rel, hrel⟩ := walkAll_prefix _ rp r fl hm
      have : rp = rp ++ (Tree.name c :: rel) := by
        rw [← hrel]
        exact hfst.symm
      have hlen := congrArg List.length this
      rw [List.length_append, List.length_cons] at hlen
      omega
    · apply walkAll_roots_nodup
      · intro c hc rp'
        exact ih c (pruneRockbox_sub hc)
          (wfbAll_mem subs c hparts.2 (pruneRockbox_sub hc)) rp'
      · exact List.Nodup.sublist
          (List.Sublist.map Tree.name (pruneRockbox_sublist subs)) hparts.1

theorem walkList_no_rockbox : ∀ t, wfb t = true → ∀ rp r fl, (r, fl) ∈ walkList t rp →
    ".rockbox" ∉ r.drop rp.length := by
  intro t
  induction t using treeInd with
  | h n subs files ih =>
    intro hwf rp r fl hmem
    have hparts := wfb_parts hwf
    rw [walkList] at hmem
    rcases List.mem_cons.1 hmem with h1 | h2
    · rw [Prod.mk.injEq] at h1
      obtain ⟨hr, -⟩ := h1
      subst hr
      rw [List.drop_length]
      simp
    · rw [walkAll_mem] at h2
      obtain ⟨c, hcl, hcw⟩ := h2
      have hcsubs := pruneRockbox_sub hcl
      have hcwf : wfb c = true := wfbAll_mem subs c hparts.2 hcsubs
      have hrest := ih c hcsubs hcwf (rp ++ [Tree.name c]) r fl hcw
      obtain ⟨rel, hrel⟩ := walkList_prefix c (rp ++ [Tree.name c]) r fl hcw
      have hdrop : r.drop rp.length = Tree.name c :: rel := by
        rw [hrel, List.append_assoc, List.singleton_append, List.drop_left]
      have hdrop1 : r.drop (rp ++ [Tree.name c]).length = rel := by
        rw [hrel, List.drop_left]
      rw [hdrop]
      intro hin
      rcases List.mem_cons.1 hin with heq | hin2
      · exact pruneRockbox_name subs c hparts.1 hcl heq.symm
      · rw [hdrop1] at hrest
        exact hrest hin2


/-! ### Completion of the walk -/

/-- The walk always yields at least its starting directory. -/
theorem walkList_length_pos (t : Tree) (rp : Path) : 0 < (walkList t rp).length := by
  cases t with
  | node n subs files =>
    rw [walkList]
    simp

/-- `os.listdir` succeeds on every directory reported by the walk, and
returns exactly the file list the walk reported for it. -/
theorem listdirM_ok {s : St} {r : Path} {fl : List String}
    (hwf : wfb s.tree = true) (hm : (r, fl) ∈ walkList s.tree s.rootPath) :
    listdirM r s = .ok fl s := by
  obtain ⟨hpre, t', hfind, hfl⟩ := walkList_findNode s.tree hwf s.rootPath r fl hm
  unfold listdirM
  rw [dif_pos hpre]
  simp only [hfind, hfl]

/-- With a cooperating move oracle the candidate loop always returns
normally: the decoder never raises, and a successful extraction leaves
the staged file in place for the move. -/
theorem haLoop_ok (env : Env) (d : Path) (hmv : ∀ a b, env.moveOk a b = true) :
    ∀ (l : List Path) (s : St), ∃ s', haLoop env d l s = .ok () s'
  | [], s => ⟨s, rfl⟩
  | f :: rest, s => by
    have hok := extract_isOk env f s
    cases hx : extract_art_mutagen env f s with
    | exc e t =>
      rw [hx] at hok
      exact absurd hok (by simp [resIsOk])
    | ok r t =>
      cases r with
      | none =>
        obtain ⟨s', h'⟩ := haLoop_ok env d hmv rest t
        exact ⟨s', by rw [haLoop_none hx]; exact h'⟩
      | some cp =>
        obtain ⟨-, c, hc⟩ := extract_some_shape env f s cp t hx
        exact ⟨_, by rw [haLoop_some hx]; exact coverFound_ok hc (hmv _ _)⟩

/-- With a cooperating move oracle the per-folder body returns normally
on every directory reported by the walk. -/
theorem folderStep_ok {env : Env} {root : Path} {fl : List String} {s : St}
    (hmv : ∀ a b, env.moveOk a b = true)
    (hwf : wfb s.tree = true)
    (hm : (root, fl) ∈ walkList s.tree s.rootPath) :
    ∃ s', folderStep env root s = .ok () s' := by
  by_cases hc : (pathExistsB s (root ++ [COVER_FILENAME]) &&
      decide (0 < getsizeB env s (root ++ [COVER_FILENAME]))) = true
  · obtain ⟨c, hlk, hsz⟩ := (coverCondition_iff env s root).1 hc
    rw [folderStep_cover hlk hsz]
    cases hd : decodeImg env c with
    | none => exact ⟨_, process_cover_image_fail hlk hd⟩
    | some m => exact ⟨_, process_cover_image_ok hlk hd⟩
  · have hcf : (pathExistsB s (root ++ [COVER_FILENAME]) &&
        decide (0 < getsizeB env s (root ++ [COVER_FILENAME]))) = false :=
      Bool.eq_false_iff.mpr hc
    rw [folderStep_nocover hcf]
    rw [handle_audio_files_eq (listdirM_ok hwf hm)]
    exact haLoop_ok env root hmv _ s

/-- Completion of the walk loop: with a cooperating move oracle, a
well-formed tree and no pending interrupt, the loop over fresh folders
returns normally, adds every folder to the count, and records exactly
one visit per folder, in order. -/
theorem processLoop_complete (env : Env) (hmv : ∀ a b, env.moveOk a b = true) :
    ∀ (l : List (Path × List String)) (set : List Path) (cnt : Nat) (s : St),
      wfb s.tree = true → s.interruptAfter = none →
      (∀ r fl, (r, fl) ∈ l → (r, fl) ∈ walkList s.tree s.rootPath) →
      (∀ r fl, (r, fl) ∈ l → r ∉ set) →
      (l.map Prod.fst).Nodup →
      ∃ s', processLoop env l set cnt s = .ok (cnt + l.length) s' ∧
        s'.tree = s.tree ∧ s'.rootPath = s.rootPath ∧ s'.interruptAfter = none ∧
        visitsOf s'.events = visitsOf s.events ++ l.map Prod.fst
  | [], set, cnt, s => by
    intro hwf hint _ _ _
    exact ⟨s, rfl, rfl, rfl, hint, by simp⟩
  | (root, fl) :: rest, set, cnt, s => by
    intro hwf hint hsub hset hnd
    have hmem : (root, fl) ∈ walkList s.tree s.rootPath :=
      hsub root fl (List.mem_cons_self _ _)
    have hnset : root ∉ set := hset root fl (List.mem_cons_self _ _)
    rw [List.map_cons, List.nodup_cons] at hnd
    rw [processLoop_cons_new hint hnset]
    rw [run_bind_ok (run_logEvent (Event.visit root) s)]
    have hwf1 : wfb ({ s with events := s.events ++ [Event.visit root] } : St).tree = true := hwf
    have hmem1 : (root, fl) ∈
        walkList ({ s with events := s.events ++ [Event.visit root] } : St).tree
          ({ s with events := s.events ++ [Event.visit root] } : St).rootPath := hmem
    obtain ⟨s2, hstep⟩ := folderStep_ok hmv hwf1 hmem1
    rw [run_bind_ok hstep]
    have hstd := steady_folderStep env root { s with events := s.events ++ [Event.visit root] }
    rw [hstep] at hstd
    simp only [resSt] at hstd
    obtain ⟨ht2, hrp2, -, hia2⟩ := hstd
    have hia2n : s2.interruptAfter = none := hia2 hint
    have hwf2 : wfb s2.tree = true := by rw [ht2]; exact hwf
    have hsub2 : ∀ r fl0, (r, fl0) ∈ rest → (r, fl0) ∈ walkList s2.tree s2.rootPath := by
      intro r fl0 hr
      rw [ht2, hrp2]
      exact hsub r fl0 (List.mem_cons_of_mem _ hr)
    have hset2 : ∀ r fl0, (r, fl0) ∈ rest → r ∉ set ++ [root] := by
      intro r fl0 hr hmem0
      rcases List.mem_append.1 hmem0 with h1 | h2
      · exact hset r fl0 (List.mem_cons_of_mem _ hr) h1
      · rw [List.mem_singleton] at h2
        apply hnd.1
        rw [← h2]
        exact List.mem_map.2 ⟨(r, fl0), hr, rfl⟩
    obtain ⟨s', hrun, ht3, hrp3, hia3, hvis3⟩ :=
      processLoop_complete env hmv rest (set ++ [root]) (cnt + 1) s2 hwf2 hia2n hsub2 hset2 hnd.2
    have hcnt : cnt + ((root, fl) :: rest).length = cnt + 1 + rest.length := by
      rw [List.length_cons]
      omega
    rw [hcnt]
    have hvfs := keepsVisits_folderStep env root { s with events := s.events ++ [Event.visit root] }
    rw [hstep] at hvfs
    simp only [resSt] at hvfs
    have hv2 : visitsOf s2.events = visitsOf s.events ++ [root] := by
      rw [visitsOf_eq_of_filter hvfs]
      simp [visitsOf_append, visitsOf]
    refine ⟨s', hrun, ?_, ?_, hia3, ?_⟩
    · rw [ht3, ht2]
    · rw [hrp3, hrp2]
    · rw [hvis3, hv2]
      simp

/-- Run equation of `process_images` under a normal completion of the
walk loop. -/
theorem process_images_eq {env : Env} {s : St} {n : Nat} {s1 : St}
    (h : processLoop env (walkList s.tree s.rootPath) [] 0 s = .ok n s1) :
    process_images env s =
      (if 0 < n then
        logEvent (.print ("\n" ++ Nat.repr n ++ " folder(s) processed."))
      else pure ()) s1 := by
  have h0 : process_images env s =
      ((processLoop env (walkList s.tree s.rootPath) [] 0) >>= (fun n0 =>
        if 0 < n0 then
          logEvent (.print ("\n" ++ Nat.repr n0 ++ " folder(s) processed."))
        else pure ())) s := rfl
  rw [h0]
  rw [run_bind_ok h]

/-- Completion of `process_images`: the walk returns normally, records
exactly the walked folders as visits, in order, and prints the summary
with the exact folder count. -/
theorem process_images_ok (env : Env) (s : St)
    (hmv : ∀ a b, env.moveOk a b = true)
    (hwf : wfb s.tree = true) (hint : s.interruptAfter = none) :
    ∃ s', process_images env s = .ok () s' ∧
      visitsOf s'.events =
        visitsOf s.events ++ (walkList s.tree s.rootPath).map Prod.fst ∧
      Event.print ("\n" ++ Nat.repr (walkList s.tree s.rootPath).length ++
        " folder(s) processed.") ∈ s'.events := by
  obtain ⟨s1, hrun, ht1, hrp1, hia1, hvis1⟩ :=
    processLoop_complete env hmv (walkList s.tree s.rootPath) [] 0 s hwf hint
      (fun r fl h => h) (fun r fl _ => List.not_mem_nil r)
      (walkList_roots_nodup s.tree hwf s.rootPath)
  rw [Nat.zero_add] at hrun
  have hpos : 0 < (walkList s.tree s.rootPath).length :=
    walkList_length_pos s.tree s.rootPath
  rw [process_images_eq hrun]
  rw [if_pos hpos]
  rw [run_logEvent]
  refine ⟨_, rfl, ?_, ?_⟩
  · show visitsOf (s1.events ++ [Event.print ("\n" ++
      Nat.repr (walkList s.tree s.rootPath).length ++ " folder(s) processed.")]) = _
    rw [visitsOf_append, hvis1]
    simp [visitsOf]
  · simp


/-- In a duplicate-free list every member is counted exactly once. -/
theorem count_one_of_nodup {α : Type} [BEq α] [LawfulBEq α] :
    ∀ {l : List α} {a : α}, l.Nodup → a ∈ l → l.count a = 1
  | [], a, _, hmem => absurd hmem (List.not_mem_nil a)
  | b :: rest, a, hnd, hmem => by
    rw [List.nodup_cons] at hnd
    rcases List.mem_cons.1 hmem with h1 | h2
    · subst h1
      rw [List.count_cons_self]
      rw [List.count_eq_zero.2 hnd.1]
    · have hne : a ≠ b := by
        intro he
        subst he
        exact hnd.1 h2
      rw [List.count_cons_of_ne hne]
      exact count_one_of_nodup hnd.2 h2

/-! ### Claim C6 -/

/-- C6: for every folder the walk visits, the walk body normalizes the
existing cover in place exactly when a `cover.jpg` entry exists at the
folder's canonical path with size greater than zero, and otherwise
attempts extraction through the candidate selector; and with a
cooperating filesystem every walked folder — including one with no audio
files and no cover — is visited exactly once and the final summary counts
every walked folder. -/
theorem claim_C6_walker_dichotomy_and_count :
    (∀ env (root : Path) (s : St) c,
      lookupFile s.files (root ++ [COVER_FILENAME]) = some c →
      0 < contentSize env c →
      folderStep env root s = process_cover_image env (root ++ [COVER_FILENAME]) s) ∧
    (∀ env (root : Path) (s : St),
      (pathExistsB s (root ++ [COVER_FILENAME]) &&
        decide (0 < getsizeB env s (root ++ [COVER_FILENAME]))) = false →
      folderStep env root s =
        handle_audio_files env root (tmpRoot ++ [TEMP_FOLDER_NAME]) s) ∧
    (∀ env (s : St), (∀ a b, env.moveOk a b = true) →
      wfb s.tree = true → s.interruptAfter = none → s.events = [] →
      ∃ s', process_images env s = .ok () s' ∧
        (∀ r fl, (r, fl) ∈ walkList s.tree s.rootPath →
          countVisits s'.events r = 1) ∧
        Event.print ("\n" ++ Nat.repr (walkList s.tree s.rootPath).length ++
          " folder(s) processed.") ∈ s'.events) := by
  refine ⟨?_, ?_, ?_⟩
  · intro env root s c hc hsz
    exact folderStep_cover hc hsz
  · intro env root s h
    exact folderStep_nocover h
  · intro env s hmv hwf hint hev
    obtain ⟨s', hrun, hvis, hmem⟩ := process_images_ok env s hmv hwf hint
    refine ⟨s', hrun, ?_, hmem⟩
    intro r fl hL
    have hr : r ∈ (walkList s.tree s.rootPath).map Prod.fst :=
      List.mem_map.2 ⟨(r, fl), hL, rfl⟩
    have hnd := walkList_roots_nodup s.tree hwf s.rootPath
    show (visitsOf s'.events).count r = 1
    rw [hvis, hev]
    simp only [visitsOf, List.filterMap_nil, List.nil_append]
    exact count_one_of_nodup hnd hr

/-- A bare state: one walked folder with no files at all — no audio
files and no cover. -/
def stC6 : St :=
  { files := [], dirsMade := [], tree := Tree.node "r" [] [],
    rootPath := ["r"], events := [], interruptAfter := none }

/-- Witness for C6: a folder with a non-empty cover is normalized; the
bare folder goes through the selector; the full walk on the bare folder
visits it exactly once and prints the one-folder summary. -/
theorem claim_C6_walker_dichotomy_and_count_witness :
    (folderStep envFix ["r"] stC8 =
      process_cover_image envFix (["r"] ++ [COVER_FILENAME]) stC8) ∧
    (folderStep envFix ["r"] stC6 =
      handle_audio_files envFix ["r"] (tmpRoot ++ [TEMP_FOLDER_NAME]) stC6) ∧
    (∃ s', process_images envFix stC6 = .ok () s' ∧
      (∀ r fl, (r, fl) ∈ walkList stC6.tree stC6.rootPath →
        countVisits s'.events r = 1) ∧
      Event.print ("\n" ++ Nat.repr (walkList stC6.tree stC6.rootPath).length ++
        " folder(s) processed.") ∈ s'.events) :=
  ⟨claim_C6_walker_dichotomy_and_count.1 envFix ["r"] stC8
      (FileContent.raw 9) rfl (by decide),
   claim_C6_walker_dichotomy_and_count.2.1 envFix ["r"] stC6 (by decide),
   claim_C6_walker_dichotomy_and_count.2.2 envFix stC6 (fun a b => rfl)
      (by simp [stC6, wfb, wfbAll]) rfl rfl⟩


/-! ### Claim C9 -/

/-- Run equation of `process_images` when the walk loop aborts with an
exception: the summary is skipped and the exception propagates. -/
theorem process_images_exc {env : Env} {s : St} {e : PyExc} {s1 : St}
    (h : processLoop env (walkList s.tree s.rootPath) [] 0 s = .exc e s1) :
    process_images env s = .exc e s1 := by
  have h0 : process_images env s =
      ((processLoop env (walkList s.tree s.rootPath) [] 0) >>= (fun n0 =>
        if 0 < n0 then
          logEvent (.print ("\n" ++ Nat.repr n0 ++ " folder(s) processed."))
        else pure ())) s := rfl
  rw [h0]
  rw [run_bind_exc h]

/-- A state whose walk root is itself a directory named `.rockbox`. -/
def stR : St :=
  { files := [], dirsMade := [], tree := Tree.node ".rockbox" [] [],
    rootPath := ["m", ".rockbox"], events := [], interruptAfter := none }

/-- C9 counterexample: a directory named `.rockbox` is not always
skipped.  The pruning in `process_images` only removes `.rockbox` from
the child listings (`dirs.remove`), never the walk's starting directory
itself: when the configured root directory is named `.rockbox`, the walk
visits it, processes it, and counts it in the summary. -/
theorem claim_C9_rockbox_root_visited_counterexample :
    baseName stR.rootPath = ".rockbox" ∧
    ∃ s', process_images envFix stR = .ok () s' ∧
      countVisits s'.events ["m", ".rockbox"] = 1 ∧
      Event.print ("\n1 folder(s) processed.") ∈ s'.events := by
  have hw : walkList stR.tree stR.rootPath = [(["m", ".rockbox"], [])] := by
    simp [stR, walkList, walkAll, pruneRockbox]
  have hpl0 : processLoop envFix [(["m", ".rockbox"], [])] [] 0 stR =
      .ok 1 { stR with events := [Event.visit ["m", ".rockbox"]] } := rfl
  have hpl : processLoop envFix (walkList stR.tree stR.rootPath) [] 0 stR =
      .ok 1 { stR with events := [Event.visit ["m", ".rockbox"]] } := by
    rw [hw]
    exact hpl0
  refine ⟨rfl, ?_⟩
  rw [process_images_eq hpl]
  refine ⟨_, rfl, ?_, ?_⟩
  · decide
  · decide

/-- A well-formed tree with a `.rockbox` child next to an ordinary album
folder. -/
def treeC9 : Tree :=
  Tree.node "r" [Tree.node ".rockbox" [] [], Tree.node "A" [] []] []

/-- A state walking `treeC9` from its root. -/
def stC9 : St :=
  { files := [], dirsMade := [], tree := treeC9, rootPath := ["r"],
    events := [], interruptAfter := none }

/-- C9 (amended): below the walk root the claim holds — no directory
whose path relative to the walk root contains a `.rockbox` component is
ever reported by the walk, and (the walk's visits being exactly the
reported folders) none is ever visited or counted; the walk root itself
is exempt, as the counterexample shows. -/
theorem claim_C9_rockbox_pruned_below_root :
    (∀ t rp r fl, wfb t = true → (r, fl) ∈ walkList t rp →
      ".rockbox" ∉ r.drop rp.length) ∧
    (∀ env (s : St), (∀ a b, env.moveOk a b = true) →
      wfb s.tree = true → s.interruptAfter = none → s.events = [] →
      ∃ s', process_images env s = .ok () s' ∧
        ∀ r, r ∈ visitsOf s'.events → ".rockbox" ∉ r.drop s.rootPath.length) := by
  constructor
  · intro t rp r fl hwf hm
    exact walkList_no_rockbox t hwf rp r fl hm
  · intro env s hmv hwf hint hev
    obtain ⟨s', hrun, hvis, -⟩ := process_images_ok env s hmv hwf hint
    refine ⟨s', hrun, ?_⟩
    intro r hr
    rw [hvis, hev] at hr
    simp only [visitsOf, List.filterMap_nil, List.nil_append] at hr
    rw [List.mem_map] at hr
    obtain ⟨⟨r0, fl0⟩, hm, hfst⟩ := hr
    have hr0 : r0 = r := hfst
    subst hr0
    exact walkList_no_rockbox s.tree hwf s.rootPath r0 fl0 hm

/-- Witness for the amended C9 on `treeC9`: the reported album folder's
relative path avoids `.rockbox`, and a full run from the root visits no
folder whose relative path contains `.rockbox`. -/
theorem claim_C9_rockbox_pruned_below_root_witness :
    (".rockbox" ∉ (["r", "A"] : Path).drop (["r"] : Path).length) ∧
    (∃ s', process_images envFix stC9 = .ok () s' ∧
      ∀ r, r ∈ visitsOf s'.events →
        ".rockbox" ∉ r.drop stC9.rootPath.length) :=
  ⟨claim_C9_rockbox_pruned_below_root.1 treeC9 ["r"] ["r", "A"] []
      (by simp [treeC9, wfb, wfbAll, Tree.name])
      (by simp [treeC9, walkList, walkAll, pruneRockbox, Tree.name]),
   claim_C9_rockbox_pruned_below_root.2 envFix stC9 (fun a b => rfl)
      (by simp [stC9, treeC9, wfb, wfbAll, Tree.name]) rfl rfl⟩


/-! ### Claim C7 -/

/-- The environment of the C7 counterexample: extraction and decoding
work, but every filesystem move fails. -/
def envC7 : Env := { envFix with moveOk := fun _ _ => false }

/-- Two album folders `A` and `B`, each with one mp3 carrying embedded
art, and no covers anywhere. -/
def stC7 : St :=
  { files := [(["r", "A", "a.mp3"], FileContent.raw 1),
              (["r", "B", "b.mp3"], FileContent.raw 1)],
    dirsMade := [],
    tree := Tree.node "r" [Tree.node "A" [] ["a.mp3"], Tree.node "B" [] ["b.mp3"]] [],
    rootPath := ["r"], events := [], interruptAfter := none }

/-- The state at which the C7 run aborts: the cover for `A` has been
staged and normalized, the move has failed, and folder `B` was never
reached. -/
def stC7exc : St :=
  { files := [(["r", "A", "a.mp3"], FileContent.raw 1),
              (["r", "B", "b.mp3"], FileContent.raw 1),
              (["tmp", "cover_extraction_temp_extract", "a.jpeg"],
                FileContent.jpegSaved ⟨300, 300, ColorMode.RGB⟩ 85 0)],
    dirsMade := [tempExtractDir],
    tree := Tree.node "r" [Tree.node "A" [] ["a.mp3"], Tree.node "B" [] ["b.mp3"]] [],
    rootPath := ["r"],
    events := [Event.visit ["r"], Event.visit ["r", "A"],
      Event.extractAttempt ["r", "A", "a.mp3"],
      Event.stage ["tmp", "cover_extraction_temp_extract", "a.jpeg"] 7],
    interruptAfter := none }

/-- C7 counterexample: when the move of a staged cover fails, the error
is neither reported nor recovered — no message of any kind is printed —
and the walk does not continue to the next folder: `process_images`
aborts with the `OSError`, folder `B` (reported by the walk and still
coverless) is never visited, and no summary is printed. -/
theorem claim_C7_move_error_uncaught_counterexample :
    process_images envC7 stC7 =
      .exc (PyExc.osError "move failed: tmp/cover_extraction_temp_extract/a.jpeg")
        stC7exc ∧
    (["r", "B"], ["b.mp3"]) ∈ walkList stC7.tree stC7.rootPath ∧
    countVisits stC7exc.events ["r", "B"] = 0 ∧
    lookupFile stC7exc.files (["r", "B"] ++ [COVER_FILENAME]) = none ∧
    (∀ m, Event.print m ∉ stC7exc.events) := by
  have hw : walkList stC7.tree stC7.rootPath =
      [(["r"], []), (["r", "A"], ["a.mp3"]), (["r", "B"], ["b.mp3"])] := by
    simp [stC7, walkList, walkAll, pruneRockbox, Tree.name]
  refine ⟨?_, ?_, ?_, ?_, ?_⟩
  · exact process_images_exc (by rw [hw]; exact rfl)
  · rw [hw]
    decide
  · decide
  · decide
  · intro m hm
    simp [stC7exc] at hm

/-- C7 (amended): a filesystem error while moving a staged cover into a
folder's canonical cover path is not caught anywhere: the move-and-report
step raises `OSError` naming the staged file and prints nothing, the walk
loop aborts at that folder — abandoning it and every later folder rather
than continuing — and `main` then runs the cleanup once and re-raises the
error. -/
theorem claim_C7_move_error_propagates :
    (∀ env (d f cp : Path) (s : St) c,
      lookupFile s.files cp = some c →
      env.moveOk cp (d ++ [COVER_FILENAME]) = false →
      coverFound env d f cp s = .exc (.osError ("move failed: " ++ pathStr cp)) s) ∧
    (∀ env (root : Path) fl rest set cnt (s s2 : St) e,
      s.interruptAfter = none → root ∉ set →
      folderStep env root { s with events := s.events ++ [Event.visit root] } =
        .exc e s2 →
      processLoop env ((root, fl) :: rest) set cnt s = .exc e s2) ∧
    (∀ env (s s1 : St) e, process_images env s = .exc e s1 → e.isException = true →
      ∃ s2, pymain env s = .exc e s2 ∧
        countClears s2.events = countClears s1.events + 1) := by
  refine ⟨?_, ?_, ?_⟩
  · intro env d f cp s c hc hm
    have hmv : moveM env cp (d ++ [COVER_FILENAME]) s =
        .exc (.osError ("move failed: " ++ pathStr cp)) s := by
      simp [moveM, hc, hm]
    exact run_bind_exc hmv
  · intro env root fl rest set cnt s s2 e hint hmem hstep
    rw [processLoop_cons_new hint hmem]
    rw [run_bind_ok (run_logEvent (Event.visit root) s)]
    rw [run_bind_exc hstep]
  · intro env s s1 e hp he
    obtain ⟨s2, hc, hcc, -⟩ := clear_ok_ex s1
    exact ⟨s2, pymain_eq_exc hp he hc, hcc⟩

/-- A state holding only a staged cover, ready to be moved. -/
def stMv : St :=
  { files := [(["tmp", "cover_extraction_temp_extract", "a.jpeg"],
      FileContent.raw 7)],
    dirsMade := [tempExtractDir], tree := Tree.node "r" [] [], rootPath := ["r"],
    events := [], interruptAfter := none }

/-- One album folder whose mp3 carries embedded art, and no cover. -/
def stC7A : St :=
  { files := [(["r", "a.mp3"], FileContent.raw 1)], dirsMade := [],
    tree := Tree.node "r" [] ["a.mp3"], rootPath := ["r"],
    events := [], interruptAfter := none }

/-- The state at which the one-folder C7 run aborts. -/
def stC7Aexc : St :=
  { files := [(["r", "a.mp3"], FileContent.raw 1),
              (["tmp", "cover_extraction_temp_extract", "a.jpeg"],
                FileContent.jpegSaved ⟨300, 300, ColorMode.RGB⟩ 85 0)],
    dirsMade := [tempExtractDir],
    tree := Tree.node "r" [] ["a.mp3"], rootPath := ["r"],
    events := [Event.visit ["r"], Event.extractAttempt ["r", "a.mp3"],
      Event.stage ["tmp", "cover_extraction_temp_extract", "a.jpeg"] 7],
    interruptAfter := none }

/-- Witness for the amended C7 at concrete inputs: the failed move
raises with the staged filename and changes nothing; the one-entry walk
loop aborts with that error; `main` cleans up once and re-raises it. -/
theorem claim_C7_move_error_propagates_witness :
    (coverFound envC7 ["r"] ["r", "a.mp3"]
        ["tmp", "cover_extraction_temp_extract", "a.jpeg"] stMv =
      .exc (.osError ("move failed: " ++
        pathStr ["tmp", "cover_extraction_temp_extract", "a.jpeg"])) stMv) ∧
    (processLoop envC7 [(["r"], ["a.mp3"])] [] 0 stC7A =
      .exc (PyExc.osError "move failed: tmp/cover_extraction_temp_extract/a.jpeg")
        stC7Aexc) ∧
    (∃ s2, pymain envC7 stC7A =
      .exc (PyExc.osError "move failed: tmp/cover_extraction_temp_extract/a.jpeg") s2 ∧
      countClears s2.events = countClears stC7Aexc.events + 1) := by
  refine ⟨?_, ?_, ?_⟩
  · exact claim_C7_move_error_propagates.1 envC7 ["r"] ["r", "a.mp3"]
      ["tmp", "cover_extraction_temp_extract", "a.jpeg"] stMv (FileContent.raw 7) rfl rfl
  · exact claim_C7_move_error_propagates.2.1 envC7 ["r"] ["a.mp3"] [] [] 0 stC7A stC7Aexc
      (PyExc.osError "move failed: tmp/cover_extraction_temp_extract/a.jpeg")
      rfl (by decide) rfl
  · refine claim_C7_move_error_propagates.2.2 envC7 stC7A stC7Aexc
      (PyExc.osError "move failed: tmp/cover_extraction_temp_extract/a.jpeg") ?_ rfl
    have hw : walkList stC7A.tree stC7A.rootPath = [(["r"], ["a.mp3"])] := by
      simp [stC7A, walkList, walkAll, pruneRockbox]
    exact process_images_exc (by rw [hw]; exact rfl)

end AlbumArt
